import Mathlib

/-!
# livecache: eviction heap, cache cell and cache bucket

A shallow embedding of `cleaner_heap.go`, `cache.go` and `cache_bucket.go`.

Modelling conventions
* `time.Time` instants are integers (a nanosecond count on one time line); `Before` is `<`,
  `After` is `>`, `Add` is `+`.  The zero `time.Time` is `0`.
* `interface{}` values are `Option V`: `none` is the nil interface.  `error` values are
  `Option E`: `none` is the nil error.
* A Go slice is a `List`; an index expression that is out of range panics, which is the
  fault `Fault.indexOutOfRange`.
* The two recursive heap procedures carry a fuel argument that decreases by one on every call;
  the entry points supply `index + 1` (sift up) and `len(Heap)` (sift down).  Running out of fuel
  is the distinct fault `Fault.outOfFuel`, so a result `.ok` is a real return of the Go code.
* A producer (`LiveGetter`) is a Go closure: it may read and change state of its own.  That state
  is the explicit world `G`, threaded through every call.
* Calls on a cell are atomic steps taken one at a time (`Sys`).  What may interleave inside a
  call (between the producer call of `refresh` and its locked update, between the scan of
  `cleaner` and `clearItems`, between the lookup and the insert of `CacheBucket.Get`) is not
  modelled, with one exception: `Race` runs the two critical sections of `Get`, the
  read-locked check and the write-locked rest, of several callers in any order.  A launched
  goroutine `go ci.refresh()` is counted in `launched` and runs later as a step of its own.
* A Go map is the list of its entries, no key occurring twice; the order in which `range`
  yields them is an argument.
-/

namespace Livecache

/-! ## cleaner_heap.go -/

/-- The record `ExpiredKey` of `cache_bucket.go`. -/
structure ExpiredKey where
  Key : String
  LastAccessed : Int
deriving DecidableEq, Repr

/-- The struct `LatestHeap`. -/
structure LatestHeap where
  Heap : List ExpiredKey
  MaxElements : Int
deriving DecidableEq, Repr

/-- The ways a run of the heap code can fail to return. -/
inductive Fault where
  | indexOutOfRange
  | outOfFuel
deriving DecidableEq, Repr

/-- The function `NewHeap`: both the nil slice and `make([]*ExpiredKey, 0, max)` have length 0. -/
def NewHeap (max : Int) : LatestHeap :=
  { Heap := [], MaxElements := max }

/-- An index expression `s[i]` used as a value. -/
def readAt (s : List ExpiredKey) (i : Nat) : Except Fault ExpiredKey :=
  match s[i]? with
  | some x => .ok x
  | none => .error Fault.indexOutOfRange

/-- The tuple assignment `s[i], s[j] = s[j], s[i]`: both operands are read, then `s[i]` and
`s[j]` are assigned in this order. -/
def swapAt (s : List ExpiredKey) (i j : Nat) : Except Fault (List ExpiredKey) :=
  match s[j]?, s[i]? with
  | some b, some a => .ok ((s.set i b).set j a)
  | _, _ => .error Fault.indexOutOfRange

/-- The method `LatestChild`; the Go result `(-1, nil)` is `none`. -/
def LatestHeap.LatestChild (lh : LatestHeap) (index : Nat) :
    Except Fault (Option (Nat × ExpiredKey)) :=
  if 2 * index + 1 ≥ lh.Heap.length then .ok none
  else if 2 * index + 2 ≥ lh.Heap.length then
    match readAt lh.Heap (2 * index + 1) with
    | .ok l => .ok (some (2 * index + 1, l))
    | .error f => .error f
  else
    match readAt lh.Heap (2 * index + 2), readAt lh.Heap (2 * index + 1) with
    | .ok r, .ok l =>
      if r.LastAccessed < l.LastAccessed then .ok (some (2 * index + 1, l))
      else .ok (some (2 * index + 2, r))
    | .error f, _ => .error f
    | _, .error f => .error f

/-- The method `UpHeap`, with fuel. -/
def LatestHeap.UpHeapFuel : Nat → LatestHeap → Nat → Except Fault LatestHeap
  | 0, _, _ => .error Fault.outOfFuel
  | fuel + 1, lh, index =>
    if index = 0 then .ok lh
    else
      let parentIndex := (index - 1) / 2
      match readAt lh.Heap parentIndex, readAt lh.Heap index with
      | .ok p, .ok c =>
        if ¬ (p.LastAccessed < c.LastAccessed) then .ok lh
        else
          match swapAt lh.Heap parentIndex index with
          | .ok s => LatestHeap.UpHeapFuel fuel { lh with Heap := s } parentIndex
          | .error f => .error f
      | .error f, _ => .error f
      | _, .error f => .error f

/-- The method `UpHeap`. -/
def LatestHeap.UpHeap (lh : LatestHeap) (index : Nat) : Except Fault LatestHeap :=
  LatestHeap.UpHeapFuel (index + 1) lh index

/-- The method `Heapify`, with fuel. -/
def LatestHeap.HeapifyFuel : Nat → LatestHeap → Nat → Except Fault LatestHeap
  | 0, _, _ => .error Fault.outOfFuel
  | fuel + 1, lh, index =>
    match lh.LatestChild index with
    | .error f => .error f
    | .ok none => .ok lh
    | .ok (some (i, v)) =>
      match readAt lh.Heap index with
      | .error f => .error f
      | .ok cur =>
        if cur.LastAccessed > v.LastAccessed then .ok lh
        else
          match swapAt lh.Heap i index with
          | .ok s => LatestHeap.HeapifyFuel fuel { lh with Heap := s } i
          | .error f => .error f

/-- The method `Heapify`. -/
def LatestHeap.Heapify (lh : LatestHeap) (index : Nat) : Except Fault LatestHeap :=
  LatestHeap.HeapifyFuel lh.Heap.length lh index

/-- The method `Add`. -/
def LatestHeap.Add (lh : LatestHeap) (newElement : ExpiredKey) : Except Fault LatestHeap :=
  if lh.MaxElements = 0 then .ok lh
  else if (lh.Heap.length : Int) < lh.MaxElements then
    let lh1 : LatestHeap := { lh with Heap := lh.Heap ++ [newElement] }
    lh1.UpHeap (lh1.Heap.length - 1)
  else
    match readAt lh.Heap 0 with
    | .error f => .error f
    | .ok root =>
      if newElement.LastAccessed < root.LastAccessed then
        LatestHeap.Heapify { lh with Heap := lh.Heap.set 0 newElement } 0
      else .ok lh

/-- The loop `for _, src := range source { heap.Add(src) }`. -/
def LatestHeap.AddAll : LatestHeap → List ExpiredKey → Except Fault LatestHeap
  | lh, [] => .ok lh
  | lh, e :: rest =>
    match lh.Add e with
    | .ok lh1 => LatestHeap.AddAll lh1 rest
    | .error f => .error f

/-- The candidates of `prepareData` in `cleaner_heap_test.go`; a date is written `yyyymmdd`. -/
def prepareData : List ExpiredKey :=
  [⟨"1", 20200101⟩, ⟨"2", 20210503⟩, ⟨"3", 20200402⟩, ⟨"4", 20350401⟩, ⟨"5", 20191011⟩,
   ⟨"6", 20191201⟩, ⟨"7", 20161010⟩, ⟨"8", 20400101⟩, ⟨"9", 20150405⟩, ⟨"10", 20020101⟩]

/-- The timestamp stored at index `i` (0 when out of range). -/
def tsAt (s : List ExpiredKey) (i : Nat) : Int :=
  match s[i]? with
  | some x => x.LastAccessed
  | none => 0

/-- Max-heap order on `LastAccessed`: no parent is before its child. -/
def IsMaxHeap (s : List ExpiredKey) : Prop :=
  ∀ i, 0 < i → i < s.length → ¬ (tsAt s ((i - 1) / 2) < tsAt s i)

/-- Heap order everywhere except between `k` and its parent. -/
def UpOK (s : List ExpiredKey) (k : Nat) : Prop :=
  (∀ i, 0 < i → i < s.length → i ≠ k → tsAt s i ≤ tsAt s ((i - 1) / 2)) ∧
  (∀ i, 0 < i → i < s.length → (i - 1) / 2 = k → 0 < k → tsAt s i ≤ tsAt s ((k - 1) / 2))

/-- Heap order everywhere except between `k` and its children. -/
def DownOK (s : List ExpiredKey) (k : Nat) : Prop :=
  (∀ i, 0 < i → i < s.length → (i - 1) / 2 ≠ k → tsAt s i ≤ tsAt s ((i - 1) / 2)) ∧
  (∀ i, 0 < i → i < s.length → (i - 1) / 2 = k → 0 < k → tsAt s i ≤ tsAt s ((k - 1) / 2))

/-- What the heap holds after the candidates `xs` have been fed to it: a max-heap of
`min K (len xs)` of them, none of which is after a candidate that was left out. -/
def Selected (K : Int) (xs : List ExpiredKey) (lh : LatestHeap) : Prop :=
  lh.MaxElements = K ∧ IsMaxHeap lh.Heap ∧ (lh.Heap.length : Int) = min K (xs.length : Int) ∧
  ∃ discarded : List ExpiredKey, (lh.Heap ++ discarded).Perm xs ∧
    ∀ r ∈ lh.Heap, ∀ d ∈ discarded, r.LastAccessed ≤ d.LastAccessed

/-- The timestamps of a list of candidates in ascending order. -/
def sortedTimes (xs : List ExpiredKey) : List Int :=
  (xs.map ExpiredKey.LastAccessed).insertionSort (fun a b => a ≤ b)

/-! ## cache.go -/

/-- A `context.Context`: one handed in by a caller, or the one `refresh` builds with
`context.WithTimeout(context.Background(), ttl)`. -/
inductive Context where
  | caller (id : Nat)
  | backgroundWithTimeout (timeout : Int)
deriving DecidableEq, Repr

/-- The pair `(interface{}, error)` a producer returns. -/
structure GetterResult (V E : Type) where
  data : Option V
  err : Option E

/-- The type `LiveGetter`: a closure over the world `G`. -/
abbrev LiveGetter (G V E : Type) := Context → G → GetterResult V E × G

/-- The struct `CacheItem` (the mutex `mx` has no content). -/
structure CacheItem (G V E : Type) where
  dataActual : Option V
  dataPrevious : Option V
  nextRefresh : Int
  lastUpdated : Int
  lastAccessed : Int
  getter : LiveGetter G V E
  ttl : Int

/-- The function `NewCacheItem`; `now` is the reading of `time.Now()`. -/
def NewCacheItem {G V E : Type} (getter : LiveGetter G V E) (ttl : Int) (now : Int) :
    CacheItem G V E :=
  { dataActual := none, dataPrevious := none, nextRefresh := 0, lastUpdated := 0,
    lastAccessed := now, getter := getter, ttl := ttl }

/-- The method `update`. -/
def CacheItem.update {G V E : Type} (ci : CacheItem G V E) (data : Option V) (now : Int) :
    CacheItem G V E :=
  { ci with
    dataActual := data
    dataPrevious := none
    lastUpdated := now
    lastAccessed := now
    nextRefresh := now + ci.ttl }

/-- What one call of `Get` does: the pair it returns, the cell and the world afterwards, how
often it called the producer, and how many `go ci.refresh()` it issued. -/
structure GetResult (G V E : Type) where
  value : Option V
  err : Option E
  ci : CacheItem G V E
  world : G
  getterCalls : Nat
  launched : Nat

/-- The end of `Get`: the check `ci.dataPrevious == nil && now.After(ci.nextRefresh)` with its
snapshot and launch, then `return ci.dataActual, nil`. -/
def CacheItem.GetTail {G V E : Type} (ci : CacheItem G V E) (now : Int) (g : G)
    (calls : Nat) : GetResult G V E :=
  if ci.dataPrevious.isNone ∧ now > ci.nextRefresh then
    { value := ci.dataActual, err := none, ci := { ci with dataPrevious := ci.dataActual },
      world := g, getterCalls := calls, launched := 1 }
  else
    { value := ci.dataActual, err := none, ci := ci, world := g, getterCalls := calls,
      launched := 0 }

/-- The method `Get`; `now` is the reading of `time.Now()` taken after the first check. -/
def CacheItem.Get {G V E : Type} (ci : CacheItem G V E) (ctx : Context) (now : Int) (g : G) :
    GetResult G V E :=
  match ci.dataPrevious with
  | some prev =>
    { value := some prev, err := none, ci := ci, world := g, getterCalls := 0, launched := 0 }
  | none =>
    let ci1 : CacheItem G V E := { ci with lastAccessed := now }
    match ci1.dataActual with
    | none =>
      match ci1.getter ctx g with
      | (r, g1) =>
        match r.err with
        | some e =>
          { value := none, err := some e, ci := ci1, world := g1, getterCalls := 1,
            launched := 0 }
        | none => (ci1.update r.data now).GetTail now g1 1
    | some _ => ci1.GetTail now g 0

/-- The method `LastAccessed`. -/
def CacheItem.LastAccessed {G V E : Type} (ci : CacheItem G V E) : Int :=
  ci.lastAccessed

/-- The method `IsValid`; `now` is the reading of `time.Now()`. -/
def CacheItem.IsValid {G V E : Type} (ci : CacheItem G V E) (now : Int) : Bool :=
  decide (now < ci.nextRefresh)

/-- The method `InRefresh`. -/
def CacheItem.InRefresh {G V E : Type} (ci : CacheItem G V E) : Bool :=
  ci.dataPrevious.isSome

/-- The method `Invalidate`: the number of `go ci.refresh()` it issues; no field changes. -/
def CacheItem.Invalidate {G V E : Type} (ci : CacheItem G V E) : Nat :=
  match ci.dataPrevious with
  | some _ => 0
  | none => 1

/-- The method `refresh`, run to completion; `now` is the reading of `time.Now()` taken after
the producer has returned without error.  It returns nothing to anyone: the result is the cell
and the world afterwards. -/
def CacheItem.refresh {G V E : Type} (ci : CacheItem G V E) (now : Int) (g : G) :
    CacheItem G V E × G :=
  match ci.getter (Context.backgroundWithTimeout ci.ttl) g with
  | (r, g1) =>
    match r.err with
    | some _ => ({ ci with dataPrevious := none }, g1)
    | none => (ci.update r.data now, g1)

/-! ## One cell and its goroutines -/

/-- A cell, the world of its producer, and the number of `refresh` goroutines that were
launched and have not finished. -/
structure Sys (G V E : Type) where
  ci : CacheItem G V E
  world : G
  pending : Nat

/-- The steps of a cell: a call of `Get`, the completion of one outstanding `refresh`, a call
of `Invalidate`. -/
inductive Event where
  | get (ctx : Context) (now : Int)
  | refreshDone (now : Int)
  | invalidate
deriving DecidableEq, Repr

/-- One step; a completion is possible only while a `refresh` is outstanding. -/
def Sys.step {G V E : Type} (s : Sys G V E) : Event → Option (Sys G V E)
  | Event.get ctx now =>
    let r := s.ci.Get ctx now s.world
    some { ci := r.ci, world := r.world, pending := s.pending + r.launched }
  | Event.refreshDone now =>
    if s.pending = 0 then none
    else
      let r := s.ci.refresh now s.world
      some { ci := r.1, world := r.2, pending := s.pending - 1 }
  | Event.invalidate =>
    some { s with pending := s.pending + s.ci.Invalidate }

/-- A sequence of steps. -/
def Sys.run {G V E : Type} : Sys G V E → List Event → Option (Sys G V E)
  | s, [] => some s
  | s, ev :: rest =>
    match s.step ev with
    | some s1 => Sys.run s1 rest
    | none => none

/-- A cell just built by `NewCacheItem`, with no goroutine yet. -/
def Sys.fresh {G V E : Type} (getter : LiveGetter G V E) (ttl : Int) (now : Int) (g : G) :
    Sys G V E :=
  { ci := NewCacheItem getter ttl now, world := g, pending := 0 }

/-- A producer that returns the values of a script one after the other, and fails with
`"empty"` once the script is used up; its world is the rest of the script. -/
def scripted : LiveGetter (List (GetterResult String String)) String String :=
  fun _ g =>
    match g with
    | [] => (⟨none, some "empty"⟩, [])
    | r :: rest => (r, rest)

/-- Calls of `Get` made one after the other on one cell: the results in order, then the cell
and the world after the last call. -/
def CacheItem.GetAll {G V E : Type} :
    CacheItem G V E → G → List (Context × Int) → List (GetResult G V E) × CacheItem G V E × G
  | ci, g, [] => ([], ci, g)
  | ci, g, (ctx, now) :: rest =>
    let r := ci.Get ctx now g
    let t := CacheItem.GetAll r.ci r.world rest
    (r :: t.1, t.2)

/-- What the producer returns when it is invoked once for each of the calls, in order. -/
def producerRuns {G V E : Type} (getter : LiveGetter G V E) :
    G → List (Context × Int) → List (GetterResult V E)
  | _, [] => []
  | g, (ctx, _) :: rest => (getter ctx g).1 :: producerRuns getter (getter ctx g).2 rest

/-- A cell that holds the value `"A"`, is due at 1000, and has no refresh in flight. -/
def warmCell : CacheItem Unit String String :=
  { dataActual := some "A", dataPrevious := none, nextRefresh := 1000, lastUpdated := 0,
    lastAccessed := 0, getter := fun _ g => (⟨some "B", none⟩, g), ttl := 1000 }

/-- A cell that holds `"A"` while a refresh is in flight. -/
def refreshingCell : CacheItem Unit String String :=
  { warmCell with dataPrevious := some "A", lastAccessed := 1100 }

/-- A cell without a value whose producer fails twice and then returns `"A"`. -/
def flakyCell : CacheItem (List (GetterResult String String)) String String :=
  NewCacheItem scripted 1000 0

/-- The world of `flakyCell`. -/
def flakyWorld : List (GetterResult String String) :=
  [⟨none, some "e1"⟩, ⟨none, some "e2"⟩, ⟨some "A", none⟩]

/-- A cell with the scripted producer that holds `"A"` while a refresh, launched by a `Get` at
1100, is in flight. -/
def failingCell : CacheItem (List (GetterResult String String)) String String :=
  { dataActual := some "A", dataPrevious := some "A", nextRefresh := 1000, lastUpdated := 0,
    lastAccessed := 1100, getter := scripted, ttl := 1000 }

/-- The trace `evs` from the state `s` is made only of calls of `Get` at times not before `t0`
and of completions of an outstanding `refresh` whose producer fails. -/
def GetsAndFailedRefreshes {G V E : Type} (t0 : Int) : Sys G V E → List Event → Prop
  | _, [] => True
  | s, ev :: rest =>
    (match ev with
      | Event.get _ now => t0 ≤ now
      | Event.refreshDone _ =>
        ((s.ci.getter (Context.backgroundWithTimeout s.ci.ttl) s.world).1.err).isSome = true
      | Event.invalidate => False) ∧
    (match s.step ev with
      | some s1 => GetsAndFailedRefreshes t0 s1 rest
      | none => False)

/-- A cell with the scripted producer that holds `"A"`, is due at 1000, and has no refresh in
flight. -/
def dueCell : CacheItem (List (GetterResult String String)) String String :=
  { dataActual := some "A", dataPrevious := none, nextRefresh := 1000, lastUpdated := 0,
    lastAccessed := 0, getter := scripted, ttl := 1000 }

/-- The state of a cell on which only `Get` launches refreshes: either a snapshot is present,
it equals the value held, and one refresh is outstanding; or there is no snapshot and no
refresh is outstanding. -/
def OneInFlight {G V E : Type} (getter : LiveGetter G V E) (s : Sys G V E) : Prop :=
  s.ci.getter = getter ∧
  ((∃ p, s.ci.dataPrevious = some p ∧ s.ci.dataActual = some p ∧ s.pending = 1) ∨
   (s.ci.dataPrevious = none ∧ s.pending = 0))

/-- A producer that never fails: it returns the number of calls made before. -/
def countingGetter : LiveGetter Nat Nat String :=
  fun _ n => (⟨some n, none⟩, n + 1)

/-- The cell with the producer `countingGetter` after `Get` at 0 and `Get` at 1100: it holds
`0` and a refresh is in flight. -/
def countingRefreshing : CacheItem Nat Nat String :=
  { dataActual := some 0, dataPrevious := some 0, nextRefresh := 1000, lastUpdated := 0,
    lastAccessed := 1100, getter := countingGetter, ttl := 1000 }

/-! ## cache_bucket.go -/

/-- The struct `CacheBucket`.  The map `data` is the list of its entries, no key occurring
twice; the mutex and the cancel function have no content. -/
structure CacheBucket (G V E : Type) where
  expireInterval : Int
  clearInterval : Option Int
  maxElements : Int
  data : List (String × CacheItem G V E)

/-- The builtin `delete(m, key)`. -/
def mapDelete {G V E : Type} (data : List (String × CacheItem G V E)) (key : String) :
    List (String × CacheItem G V E) :=
  data.filter (fun p => p.1 != key)

/-- The method `clearItems`. -/
def CacheBucket.clearItems {G V E : Type} (cb : CacheBucket G V E) (keys : List String) :
    CacheBucket G V E :=
  { cb with data := keys.foldl mapDelete cb.data }

/-- The candidate `&ExpiredKey{key, data.lastAccessed}` built for one entry of the map. -/
def toExpiredKey {G V E : Type} (p : String × CacheItem G V E) : ExpiredKey :=
  { Key := p.1, LastAccessed := p.2.lastAccessed }

/-- The second phase of one pass of `cleaner` (the block `if cb.maxElements > 0`): `order` is
the sequence in which `range cb.data` yields the entries on this pass. -/
def CacheBucket.cleanerMaxElements {G V E : Type} (cb : CacheBucket G V E)
    (order : List (String × CacheItem G V E)) : Except Fault (CacheBucket G V E) :=
  if cb.maxElements > 0 then
    let exceed : Int := (cb.data.length : Int) - cb.maxElements
    if exceed > 0 then
      match (NewHeap exceed).AddAll (order.map toExpiredKey) with
      | .error f => .error f
      | .ok heap =>
        let keysToClean := heap.Heap.map ExpiredKey.Key
        if keysToClean.length > 0 then .ok (cb.clearItems keysToClean) else .ok cb
    else .ok cb
  else .ok cb

/-- A cell with the given access time; nothing else of it matters to the sweep. -/
def cellAccessedAt (t : Int) : CacheItem Unit String String :=
  { dataActual := some "v", dataPrevious := none, nextRefresh := 0, lastUpdated := 0,
    lastAccessed := t, getter := fun _ g => (⟨some "v", none⟩, g), ttl := 1000 }

/-- The bucket of the scenario: `maxSize = 3` and the keys `a`, `b`, `c`, `d` accessed at
`t - 30s`, `t - 20s`, `t - 10s` and `t`, with `t = 100s`. -/
def scenarioBucket : CacheBucket Unit String String :=
  { expireInterval := 1000, clearInterval := none, maxElements := 3,
    data := [("a", cellAccessedAt 70), ("b", cellAccessedAt 80), ("c", cellAccessedAt 90),
             ("d", cellAccessedAt 100)] }

/-- The first phase of one pass of `cleaner` (the block `if cb.clearInterval != nil`): `order`
is the sequence in which `range cb.data` yields the entries, `now` the reading of
`time.Now()`. -/
def CacheBucket.cleanerIdle {G V E : Type} (cb : CacheBucket G V E)
    (order : List (String × CacheItem G V E)) (now : Int) : CacheBucket G V E :=
  match cb.clearInterval with
  | none => cb
  | some clearInterval =>
    let keysToClean :=
      (order.filter (fun p => decide (now > p.2.LastAccessed + clearInterval))).map Prod.fst
    cb.clearItems keysToClean

/-- The map index expression `cb.data[key]` with its `ok` flag. -/
def CacheBucket.lookup {G V E : Type} (cb : CacheBucket G V E) (key : String) :
    Option (CacheItem G V E) :=
  (cb.data.find? (fun p => p.1 == key)).map Prod.snd

/-- The map assignment `m[key] = cacher`; it also stands for the write a method makes through
the pointer `m[key]` to the cell it names. -/
def mapStore {G V E : Type} (data : List (String × CacheItem G V E)) (key : String)
    (cacher : CacheItem G V E) : List (String × CacheItem G V E) :=
  if data.any (fun p => p.1 == key) then
    data.map (fun p => if p.1 == key then (key, cacher) else p)
  else data ++ [(key, cacher)]

/-- What one call of `CacheBucket.Get` does: the pair it returns, the bucket and the world
afterwards, the producer calls and the launches of the cell's `Get`, and whether a cell was
built. -/
structure BucketGetResult (G V E : Type) where
  value : Option V
  err : Option E
  cb : CacheBucket G V E
  world : G
  getterCalls : Nat
  launched : Nat
  created : Bool

/-- The method `CacheBucket.Get`; `built` is the reading of `time.Now()` inside
`NewCacheItem`, `now` the one inside the cell's `Get`. -/
def CacheBucket.Get {G V E : Type} (cb : CacheBucket G V E) (ctx : Context) (key : String)
    (getter : LiveGetter G V E) (built now : Int) (g : G) : BucketGetResult G V E :=
  match cb.lookup key with
  | some cacher =>
    let r := cacher.Get ctx now g
    { value := r.value, err := r.err, cb := { cb with data := mapStore cb.data key r.ci },
      world := r.world, getterCalls := r.getterCalls, launched := r.launched,
      created := false }
  | none =>
    let cacher := NewCacheItem getter cb.expireInterval built
    let cb1 : CacheBucket G V E := { cb with data := mapStore cb.data key cacher }
    let r := cacher.Get ctx now g
    { value := r.value, err := r.err, cb := { cb1 with data := mapStore cb1.data key r.ci },
      world := r.world, getterCalls := r.getterCalls, launched := r.launched,
      created := true }

/-- The method `CacheBucket.IsValid`, with the bucket afterwards. -/
def CacheBucket.IsValid {G V E : Type} (cb : CacheBucket G V E) (key : String) (now : Int) :
    Bool × CacheBucket G V E :=
  match cb.lookup key with
  | none => (false, cb)
  | some cacher => (cacher.IsValid now, cb)

/-- The method `CacheBucket.InRefresh`, with the bucket afterwards. -/
def CacheBucket.InRefresh {G V E : Type} (cb : CacheBucket G V E) (key : String) :
    Bool × CacheBucket G V E :=
  match cb.lookup key with
  | none => (false, cb)
  | some cacher => (cacher.InRefresh, cb)

/-- The method `CacheBucket.Invalidate`: the number of `refresh` goroutines launched, with the
bucket afterwards. -/
def CacheBucket.Invalidate {G V E : Type} (cb : CacheBucket G V E) (key : String) :
    Nat × CacheBucket G V E :=
  match cb.lookup key with
  | none => (0, cb)
  | some cacher => (cacher.Invalidate, cb)

/-- The function `NewCacheBucket`; the goroutine `cleaner` it may start is not part of the
value. -/
def NewCacheBucket {G V E : Type} (expire : Int) (clear : Option Int) (max : Int) :
    CacheBucket G V E :=
  { expireInterval := expire, clearInterval := clear, maxElements := max, data := [] }

/-- The bucket of the scenario with an idle timeout of 15s. -/
def idleBucket : CacheBucket Unit String String :=
  { scenarioBucket with clearInterval := some 15, maxElements := 0 }

/-- A producer that always returns the given value. -/
def constGetter (v : String) : LiveGetter Unit String String :=
  fun _ g => (⟨some v, none⟩, g)

/-- The bucket of `TestCacheBucket`: `NewCacheBucket(time.Second, nil, 0)`. -/
def testBucket : CacheBucket Unit String String :=
  NewCacheBucket 1000 none 0

/-- The step `ev` from `s` completes a load: it calls the producer, which returns without
error, so that `update` runs. -/
def IsLoad {G V E : Type} (s : Sys G V E) : Event → Prop
  | Event.get ctx _ =>
    s.ci.dataPrevious = none ∧ s.ci.dataActual = none ∧ (s.ci.getter ctx s.world).1.err = none
  | Event.refreshDone _ =>
    0 < s.pending ∧
    (s.ci.getter (Context.backgroundWithTimeout s.ci.ttl) s.world).1.err = none
  | Event.invalidate => False

/-- No step of the trace `evs` from `s` completes a load. -/
def NoLoad {G V E : Type} : Sys G V E → List Event → Prop
  | _, [] => True
  | s, ev :: rest =>
    ¬ IsLoad s ev ∧
    (match s.step ev with
      | some s1 => NoLoad s1 rest
      | none => False)

/-! ## Concurrent callers of `Get` on one cell -/

/-- The part of `Get` that runs under `ci.mx.Lock()`: from `ci.lastAccessed = now` to the
return. -/
def CacheItem.GetLocked {G V E : Type} (ci : CacheItem G V E) (ctx : Context) (now : Int)
    (g : G) : GetResult G V E :=
  let ci1 : CacheItem G V E := { ci with lastAccessed := now }
  match ci1.dataActual with
  | none =>
    match ci1.getter ctx g with
    | (r, g1) =>
      match r.err with
      | some e =>
        { value := none, err := some e, ci := ci1, world := g1, getterCalls := 1,
          launched := 0 }
      | none => (ci1.update r.data now).GetTail now g1 1
  | some _ => ci1.GetTail now g 0

/-- Where a caller of `Get` stands: before the read-locked check of `dataPrevious`, between
that check and `ci.mx.Lock()`, or returned. -/
inductive Caller (V E : Type) where
  | idle
  | waiting
  | done (value : Option V) (err : Option E)

/-- Whether the caller has returned. -/
def Caller.isDone {V E : Type} : Caller V E → Bool
  | Caller.done _ _ => true
  | _ => false

/-- A cell with its callers, the world, and the producer calls and launches made so far by the
callers. -/
structure Race (G V E : Type) where
  ci : CacheItem G V E
  world : G
  callers : List (Caller V E)
  getterCalls : Nat
  launched : Nat

/-- The two critical sections of `Get` as steps of the caller `i`: the read-locked check, and
the write-locked rest with its context and its reading of `time.Now()`. -/
inductive RaceStep where
  | check (i : Nat)
  | locked (i : Nat) (ctx : Context) (now : Int)
deriving DecidableEq, Repr

/-- One critical section runs; a step of a caller that is not at that point is not possible. -/
def Race.step {G V E : Type} (r : Race G V E) : RaceStep → Option (Race G V E)
  | RaceStep.check i =>
    match r.callers[i]? with
    | some Caller.idle =>
      match r.ci.dataPrevious with
      | some prev => some { r with callers := r.callers.set i (Caller.done (some prev) none) }
      | none => some { r with callers := r.callers.set i Caller.waiting }
    | _ => none
  | RaceStep.locked i ctx now =>
    match r.callers[i]? with
    | some Caller.waiting =>
      let res := r.ci.GetLocked ctx now r.world
      some { ci := res.ci, world := res.world,
             callers := r.callers.set i (Caller.done res.value res.err),
             getterCalls := r.getterCalls + res.getterCalls,
             launched := r.launched + res.launched }
    | _ => none

/-- A schedule of critical sections. -/
def Race.run {G V E : Type} : Race G V E → List RaceStep → Option (Race G V E)
  | r, [] => some r
  | r, st :: rest =>
    match r.step st with
    | some r1 => Race.run r1 rest
    | none => none

/-- `n` callers about to call `Get` on the cell. -/
def Race.start {G V E : Type} (ci : CacheItem G V E) (g : G) (n : Nat) : Race G V E :=
  { ci := ci, world := g, callers := List.replicate n Caller.idle, getterCalls := 0,
    launched := 0 }

/-- What a caller returned, if it has. -/
def Caller.result {V E : Type} : Caller V E → Option (Option V × Option E)
  | Caller.done v e => some (v, e)
  | _ => none

/-- The context and clock reading of the first write-locked section of a schedule. -/
def firstLocked : List RaceStep → Option (Context × Int)
  | [] => none
  | RaceStep.check _ :: rest => firstLocked rest
  | RaceStep.locked _ ctx now :: _ => some (ctx, now)

/-- Every clock reading of a write-locked section of the schedule lies between `lo` and
`hi`. -/
def InWindow (lo hi : Int) : List RaceStep → Prop
  | [] => True
  | RaceStep.check _ :: rest => InWindow lo hi rest
  | RaceStep.locked _ _ now :: rest => lo ≤ now ∧ now ≤ hi ∧ InWindow lo hi rest

/-- A cold start before any caller has held the lock: the cell is as it was, nothing was
called or launched, and no caller has returned. -/
def ColdStart {G V E : Type} (ci : CacheItem G V E) (g : G) (r : Race G V E) : Prop :=
  r.ci.getter = ci.getter ∧ r.ci.ttl = ci.ttl ∧ r.getterCalls = 0 ∧ r.launched = 0 ∧
  r.world = g ∧ r.ci.dataActual = none ∧ r.ci.dataPrevious = none ∧
  ∀ c ∈ r.callers, c.isDone = false

/-- A cold start after the one load: the producer has been called once, nothing was launched,
the cell holds `v`, has no snapshot and is not due before `hi`, and every caller that has
returned got `(v, nil)`. -/
def SingleFlight {G V E : Type} (v : V) (hi : Int) (r : Race G V E) : Prop :=
  r.getterCalls = 1 ∧ r.launched = 0 ∧ r.ci.dataActual = some v ∧
  r.ci.dataPrevious = none ∧ hi ≤ r.ci.nextRefresh ∧
  ∀ c ∈ r.callers, c.isDone = false ∨ c = Caller.done (some v) none

/-- A cell never accessed, with `ttl = 100`, whose producer returns `"A"` and then `"B"`. -/
def shortLivedCell : CacheItem (List (GetterResult String String)) String String :=
  NewCacheItem scripted 100 0

/-- A producer that always returns the nil value and no error. -/
def nilGetter : LiveGetter Nat String String :=
  fun _ n => (⟨none, none⟩, n + 1)

/-- A cell that holds `"A"` with a refresh in flight, whose producer now returns nil. -/
def nilRefreshing : CacheItem Nat String String :=
  { dataActual := some "A", dataPrevious := some "A", nextRefresh := 1000, lastUpdated := 0,
    lastAccessed := 1100, getter := nilGetter, ttl := 1000 }

/-- A call of `Get` with its two instants: `entered`, the one reading of `time.Now()` that
`Get` takes, before `ci.mx.Lock()` and before the producer is called, and `returned`, the
instant at which the call returns. -/
structure TimedGet (G V E : Type) where
  result : GetResult G V E
  entered : Int
  returned : Int

/-- The method `Get` run from `entered` to `returned`: nothing in `Get` reads the clock after
`entered`, so what it does is `Get` at the reading `entered`. -/
def CacheItem.GetDuring {G V E : Type} (ci : CacheItem G V E) (ctx : Context)
    (entered returned : Int) (g : G) : TimedGet G V E :=
  { result := ci.Get ctx entered g, entered := entered, returned := returned }

/-- A cell never accessed, with `ttl = 3`, whose producer returns `"A"`. -/
def slowLoadCell : CacheItem Unit String String :=
  NewCacheItem (constGetter "A") 3 0

/-! ## Theorems: the eviction heap -/

theorem readAt_ok (s : List ExpiredKey) (i : Nat) (h : i < s.length) :
    ∃ x, readAt s i = .ok x ∧ s[i]? = some x ∧ x.LastAccessed = tsAt s i ∧ x ∈ s := by
  refine ⟨s[i], ?_, ?_, ?_, ?_⟩
  · simp [readAt, List.getElem?_eq_getElem h]
  · exact List.getElem?_eq_getElem h
  · simp [tsAt, List.getElem?_eq_getElem h]
  · exact List.getElem_mem h

theorem tsAt_set (s : List ExpiredKey) (i k : Nat) (e : ExpiredKey) (h : i < s.length) :
    tsAt (s.set i e) k = if k = i then e.LastAccessed else tsAt s k := by
  unfold tsAt
  rw [List.getElem?_set]
  by_cases hk : k = i
  · subst hk; simp [h]
  · have : ¬ i = k := fun h => hk h.symm
    simp [hk, this]

theorem swapAt_ok (s : List ExpiredKey) (i j : Nat) (hi : i < s.length) (hj : j < s.length) :
    ∃ t, swapAt s i j = .ok t ∧ t.length = s.length ∧ t.Perm s ∧
      ∀ k, tsAt t k = if k = j then tsAt s i else if k = i then tsAt s j else tsAt s k := by
  refine ⟨(s.set i s[j]).set j s[i], ?_, by simp, ?_, ?_⟩
  · simp [swapAt, List.getElem?_eq_getElem hi, List.getElem?_eq_getElem hj]
  · rw [List.perm_iff_count]
    intro a
    have hci : (if s[i] == a then 1 else 0) ≤ s.count a := by
      split
      · rename_i h
        have : s[i] = a := by simpa using h
        exact this ▸ List.count_pos_iff.mpr (List.getElem_mem hi)
      · omega
    by_cases hij : i = j
    · subst hij
      rw [List.set_set, List.count_set _ _ _ _ hi]
      omega
    · rw [List.count_set _ _ _ _ (by simpa using hj), List.count_set _ _ _ _ hi]
      have hj1 : j < (s.set i s[j]).length := by simpa using hj
      have h1 : (s.set i s[j])[j] = s[j] := by
        rw [List.getElem_set]; simp [hij]
      rw [h1]
      omega
  · intro k
    rw [tsAt_set _ _ _ _ (by simpa using hj), tsAt_set _ _ _ _ hi]
    by_cases hkj : k = j
    · simp [hkj, tsAt, List.getElem?_eq_getElem hi]
    · by_cases hki : k = i
      · subst hki
        simp [hkj, tsAt, List.getElem?_eq_getElem hj]
      · simp [hkj, hki]

theorem UpHeapFuel_spec (fuel : Nat) : ∀ (lh : LatestHeap) (k : Nat),
    k < fuel → k < lh.Heap.length → UpOK lh.Heap k →
    ∃ lh1, lh.UpHeapFuel fuel k = .ok lh1 ∧ lh1.MaxElements = lh.MaxElements ∧
      lh1.Heap.Perm lh.Heap ∧ IsMaxHeap lh1.Heap := by
  induction fuel with
  | zero => intro lh k hk; omega
  | succ fuel ih =>
    intro lh k hk hlen hup
    obtain ⟨H1, H2⟩ := hup
    by_cases hk0 : k = 0
    · subst hk0
      refine ⟨lh, by simp [LatestHeap.UpHeapFuel], rfl, List.Perm.refl _, ?_⟩
      intro i hi hil
      have := H1 i hi hil (by omega)
      omega
    · have hp : (k - 1) / 2 < lh.Heap.length := by omega
      obtain ⟨p, hpr, -, hpt, -⟩ := readAt_ok lh.Heap ((k - 1) / 2) hp
      obtain ⟨c, hcr, -, hct, -⟩ := readAt_ok lh.Heap k hlen
      by_cases hlt : p.LastAccessed < c.LastAccessed
      · obtain ⟨t, hsw, htl, htp, hts⟩ := swapAt_ok lh.Heap ((k - 1) / 2) k hp hlen
        have hup1 : UpOK t ((k - 1) / 2) := by
          rw [hpt, hct] at hlt
          constructor
          · intro i hi hil hne
            rw [htl] at hil
            rw [hts i, hts ((i - 1) / 2)]
            by_cases hik : i = k
            · subst hik
              have h2 : ¬ ((i - 1) / 2 = i) := by omega
              simp only [if_true, h2, if_false]
              omega
            · simp only [hik, hne, if_false]
              by_cases hpk : (i - 1) / 2 = k
              · simp only [hpk, if_true]
                have := H2 i hi hil hpk (by omega)
                omega
              · simp only [hpk, if_false]
                by_cases hpp : (i - 1) / 2 = (k - 1) / 2
                · simp only [hpp, if_true]
                  have := H1 i hi hil hik
                  rw [hpp] at this
                  omega
                · simp only [hpp, if_false]
                  exact H1 i hi hil hik
          · intro i hi hil hpar hpos
            rw [htl] at hil
            rw [hts i, hts (((k - 1) / 2 - 1) / 2)]
            have h3 : ¬ (((k - 1) / 2 - 1) / 2 = k) := by omega
            have h4 : ¬ (((k - 1) / 2 - 1) / 2 = (k - 1) / 2) := by omega
            simp only [h3, h4, if_false]
            have hpp := H1 ((k - 1) / 2) hpos hp (by omega)
            by_cases hik : i = k
            · simp only [hik, if_true]
              exact hpp
            · have h5 : ¬ (i = (k - 1) / 2) := by omega
              simp only [hik, h5, if_false]
              have := H1 i hi hil hik
              rw [hpar] at this
              omega
        obtain ⟨lh1, hr, hm, hperm, hheap⟩ :=
          ih { lh with Heap := t } ((k - 1) / 2) (by omega) (by simpa [htl] using hp) hup1
        refine ⟨lh1, ?_, hm, hperm.trans htp, hheap⟩
        simp [LatestHeap.UpHeapFuel, hk0, hpr, hcr, hlt, hsw, hr]
      · refine ⟨lh, by simp [LatestHeap.UpHeapFuel, hk0, hpr, hcr, hlt], rfl, List.Perm.refl _, ?_⟩
        intro i hi hil
        by_cases hik : i = k
        · subst hik
          rw [← hpt, ← hct]
          exact hlt
        · have := H1 i hi hil hik
          omega

theorem LatestChild_spec (lh : LatestHeap) (k : Nat) :
    (lh.Heap.length ≤ 2 * k + 1 ∧ lh.LatestChild k = .ok none) ∨
    ∃ i v, lh.LatestChild k = .ok (some (i, v)) ∧ i < lh.Heap.length ∧
      (i = 2 * k + 1 ∨ i = 2 * k + 2) ∧ v.LastAccessed = tsAt lh.Heap i ∧
      ∀ j, j < lh.Heap.length → (j = 2 * k + 1 ∨ j = 2 * k + 2) →
        tsAt lh.Heap j ≤ tsAt lh.Heap i := by
  by_cases h1 : lh.Heap.length ≤ 2 * k + 1
  · left
    exact ⟨h1, by simp [LatestHeap.LatestChild, h1]⟩
  · right
    have h1a : 2 * k + 1 < lh.Heap.length := by omega
    obtain ⟨l, hlr, -, hlt, -⟩ := readAt_ok lh.Heap (2 * k + 1) h1a
    by_cases h2 : lh.Heap.length ≤ 2 * k + 2
    · refine ⟨2 * k + 1, l, ?_, h1a, Or.inl rfl, hlt, ?_⟩
      · simp [LatestHeap.LatestChild, h1, h2, hlr]
      · intro j hj hjc
        have : j = 2 * k + 1 := by omega
        rw [this]
    · have h2a : 2 * k + 2 < lh.Heap.length := by omega
      obtain ⟨r, hrr, -, hrt, -⟩ := readAt_ok lh.Heap (2 * k + 2) h2a
      by_cases hlt2 : r.LastAccessed < l.LastAccessed
      · refine ⟨2 * k + 1, l, ?_, h1a, Or.inl rfl, hlt, ?_⟩
        · simp [LatestHeap.LatestChild, h1, h2, hlr, hrr, hlt2]
        · intro j hj hjc
          rcases hjc with hjc | hjc
          · rw [hjc]
          · rw [hjc, ← hrt, ← hlt]; omega
      · refine ⟨2 * k + 2, r, ?_, h2a, Or.inr rfl, hrt, ?_⟩
        · simp [LatestHeap.LatestChild, h1, h2, hlr, hrr, hlt2]
        · intro j hj hjc
          rcases hjc with hjc | hjc
          · rw [hjc, ← hrt, ← hlt]; omega
          · rw [hjc]

theorem HeapifyFuel_spec (fuel : Nat) : ∀ (lh : LatestHeap) (k : Nat),
    lh.Heap.length ≤ fuel + k → k < lh.Heap.length → DownOK lh.Heap k →
    ∃ lh1, lh.HeapifyFuel fuel k = .ok lh1 ∧ lh1.MaxElements = lh.MaxElements ∧
      lh1.Heap.Perm lh.Heap ∧ IsMaxHeap lh1.Heap := by
  induction fuel with
  | zero => intro lh k hf hk; omega
  | succ fuel ih =>
    intro lh k hf hlen hdown
    obtain ⟨H1, H2⟩ := hdown
    rcases LatestChild_spec lh k with ⟨hleaf, hlc⟩ | ⟨c, v, hlc, hcl, hck, hvt, hmax⟩
    · refine ⟨lh, by simp [LatestHeap.HeapifyFuel, hlc], rfl, List.Perm.refl _, ?_⟩
      intro i hi hil
      have := H1 i hi hil (by omega)
      omega
    · obtain ⟨cur, hcr, -, hct, -⟩ := readAt_ok lh.Heap k hlen
      have hpc : (c - 1) / 2 = k := by omega
      by_cases hgt : cur.LastAccessed > v.LastAccessed
      · refine ⟨lh, by simp [LatestHeap.HeapifyFuel, hlc, hcr, hgt], rfl, List.Perm.refl _, ?_⟩
        intro i hi hil
        by_cases hpk : (i - 1) / 2 = k
        · have := hmax i hil (by omega)
          rw [hpk, ← hct]
          omega
        · have := H1 i hi hil hpk
          omega
      · obtain ⟨t, hsw, htl, htp, hts⟩ := swapAt_ok lh.Heap c k hcl hlen
        have hgt0 := hgt
        rw [hct, hvt] at hgt
        have hdown1 : DownOK t c := by
          constructor
          · intro i hi hil hne
            rw [htl] at hil
            rw [hts i, hts ((i - 1) / 2)]
            by_cases hik : i = k
            · subst hik
              have h2 : ¬ ((i - 1) / 2 = i) := by omega
              simp only [if_true, h2, hne, if_false]
              have := H2 c (by omega) hcl hpc hi
              exact this
            · by_cases hic : i = c
              · subst hic
                simp only [hik, hpc, if_true, if_false]
                omega
              · simp only [hik, hic, hne, if_false]
                by_cases hpk : (i - 1) / 2 = k
                · simp only [hpk, if_true]
                  exact hmax i hil (by omega)
                · simp only [hpk, if_false]
                  exact H1 i hi hil hpk
          · intro i hi hil hpar hpos
            rw [htl] at hil
            rw [hts i, hts ((c - 1) / 2)]
            have h3 : ¬ (i = k) := by omega
            have h4 : ¬ (i = c) := by omega
            simp only [h3, h4, hpc, if_true, if_false]
            have := H1 i hi hil (by omega)
            rw [hpar] at this
            exact this
        obtain ⟨lh1, hr, hm, hperm, hheap⟩ :=
          ih { lh with Heap := t } c (by simp only [htl]; omega) (by simpa [htl] using hcl) hdown1
        refine ⟨lh1, ?_, hm, hperm.trans htp, hheap⟩
        simp [LatestHeap.HeapifyFuel, hlc, hcr, hgt0, hsw, hr]

theorem IsMaxHeap_root_max (s : List ExpiredKey) (h : IsMaxHeap s) :
    ∀ i, i < s.length → tsAt s i ≤ tsAt s 0 := by
  intro i
  induction i using Nat.strong_induction_on with
  | _ i ih =>
    intro hi
    by_cases h0 : i = 0
    · subst h0; exact le_refl _
    · have h1 := h i (by omega) hi
      have h2 := ih ((i - 1) / 2) (by omega) (by omega)
      omega

theorem IsMaxHeap_mem_le_root (root : ExpiredKey) (tl : List ExpiredKey)
    (h : IsMaxHeap (root :: tl)) : ∀ x ∈ root :: tl, x.LastAccessed ≤ root.LastAccessed := by
  intro x hx
  obtain ⟨i, hi, hxi⟩ := List.mem_iff_getElem.mp hx
  have := IsMaxHeap_root_max _ h i hi
  simpa [tsAt, List.getElem?_eq_getElem hi, hxi] using this

theorem Selected_NewHeap (K : Int) (hK : 0 ≤ K) : Selected K [] (NewHeap K) := by
  refine ⟨rfl, ?_, ?_, [], ?_, ?_⟩
  · intro i _ hi; simp [NewHeap] at hi
  · simp [NewHeap, hK]
  · simp [NewHeap]
  · intro r hr; simp [NewHeap] at hr

theorem Add_spec (K : Int) (hK : 0 ≤ K) (xs : List ExpiredKey) (lh : LatestHeap)
    (e : ExpiredKey) (hsel : Selected K xs lh) :
    ∃ lh1, lh.Add e = .ok lh1 ∧ Selected K (xs ++ [e]) lh1 := by
  obtain ⟨hmax, hheap, hlen, disc, hperm, hord⟩ := hsel
  have hplen : lh.Heap.length + disc.length = xs.length := by
    have := hperm.length_eq
    simpa using this
  by_cases hK0 : K = 0
  · have hnil : lh.Heap = [] := by
      apply List.eq_nil_of_length_eq_zero
      subst hK0
      have : min (0 : Int) (xs.length : Int) = 0 := by omega
      omega
    refine ⟨lh, by simp [LatestHeap.Add, hmax, hK0], hmax, hheap, ?_, disc ++ [e], ?_, ?_⟩
    · subst hK0
      simp only [hnil, List.length_nil, List.length_append, List.length_singleton]
      omega
    · rw [← List.append_assoc]
      exact hperm.append_right [e]
    · intro r hr
      simp [hnil] at hr
  · by_cases hlt : (lh.Heap.length : Int) < K
    · have hfull : lh.Heap.length = xs.length := by omega
      have hdnil : disc = [] := List.eq_nil_of_length_eq_zero (by omega)
      subst hdnil
      have hup : UpOK (lh.Heap ++ [e]) lh.Heap.length := by
        constructor
        · intro i hi hil hne
          have hil2 : i < lh.Heap.length := by
            simp only [List.length_append, List.length_singleton] at hil
            omega
          have h1 := hheap i hi hil2
          have e1 : tsAt (lh.Heap ++ [e]) i = tsAt lh.Heap i := by
            simp [tsAt, List.getElem?_append_left hil2]
          have hpl : (i - 1) / 2 < lh.Heap.length := by omega
          have e2 : tsAt (lh.Heap ++ [e]) ((i - 1) / 2) = tsAt lh.Heap ((i - 1) / 2) := by
            simp [tsAt, List.getElem?_append_left hpl]
          rw [e1, e2]
          omega
        · intro i hi hil hpar hpos
          simp only [List.length_append, List.length_singleton] at hil
          omega
      obtain ⟨lh1, hr, hm, hp1, hh1⟩ :=
        UpHeapFuel_spec (lh.Heap.length + 1) { lh with Heap := lh.Heap ++ [e] } lh.Heap.length
          (by omega) (by simp) hup
      refine ⟨lh1, ?_, ?_, hh1, ?_, [], ?_, ?_⟩
      · rw [hmax] at hr
        simp [LatestHeap.Add, hmax, hK0, hlt, LatestHeap.UpHeap, hr]
      · rw [hm, hmax]
      · have := hp1.length_eq
        simp only [List.length_append, List.length_singleton] at this ⊢
        omega
      · simp only [List.append_nil] at hperm ⊢
        exact hp1.trans (hperm.append_right [e])
      · intro r _ d hd
        simp at hd
    · have hKpos : 0 < K := by omega
      have hlenK : (lh.Heap.length : Int) = K := by omega
      obtain ⟨H, M⟩ := lh
      simp only at hmax hheap hlen hperm hord hplen hlt hlenK
      subst hmax
      cases H with
      | nil => simp at hlenK; omega
      | cons root tl =>
        have hroot := IsMaxHeap_mem_le_root root tl hheap
        by_cases hbefore : e.LastAccessed < root.LastAccessed
        · have hdown : DownOK ((root :: tl).set 0 e) 0 := by
            constructor
            · intro i hi hil hne
              have hil2 : i < (root :: tl).length := by simpa using hil
              have h1 := hheap i hi hil2
              rw [tsAt_set _ _ _ _ (by simp), tsAt_set _ _ _ _ (by simp)]
              have h2 : ¬ (i = 0) := by omega
              simp only [h2, hne, if_false]
              omega
            · intro i _ _ _ hpos
              omega
          obtain ⟨lh1, hr, hm, hp1, hh1⟩ :=
            HeapifyFuel_spec ((root :: tl).length)
              { Heap := (root :: tl).set 0 e, MaxElements := M } 0
              (by simp) (by simp) hdown
          refine ⟨lh1, ?_, hm, hh1, ?_, root :: disc, ?_, ?_⟩
          · have : readAt (root :: tl) 0 = .ok root := by simp [readAt]
            simp only [LatestHeap.Add, hK0, hlt, this, hbefore, if_true, if_false]
            simpa [LatestHeap.Heapify] using hr
          · have := hp1.length_eq
            simp only [List.set_cons_zero, List.length_cons, List.length_append,
              List.length_singleton] at this hlenK ⊢
            push_cast at hlenK ⊢
            omega
          · simp only [List.set_cons_zero] at hp1
            have h1 : (lh1.Heap ++ root :: disc).Perm ((e :: tl) ++ root :: disc) :=
              hp1.append_right _
            have h2 : ((e :: tl) ++ root :: disc).Perm (e :: ((root :: tl) ++ disc)) := by
              simp only [List.cons_append]
              exact List.Perm.cons e List.perm_middle
            have h3 : (e :: ((root :: tl) ++ disc)).Perm (e :: xs) := List.Perm.cons e hperm
            have h4 : (e :: xs).Perm (xs ++ [e]) := (List.perm_append_singleton e xs).symm
            exact ((h1.trans h2).trans h3).trans h4
          · intro r hr1 d hd
            simp only [List.set_cons_zero] at hp1
            have hr2 : r ∈ e :: tl := hp1.subset hr1
            have hre : r.LastAccessed ≤ root.LastAccessed := by
              rcases List.mem_cons.mp hr2 with h | h
              · rw [h]; omega
              · exact hroot r (List.mem_cons_of_mem _ h)
            rcases List.mem_cons.mp hd with h | h
            · rw [h]; exact hre
            · have := hord root (List.mem_cons_self _ _) d h
              omega
        · refine ⟨⟨root :: tl, M⟩, ?_, rfl, hheap, ?_, e :: disc, ?_, ?_⟩
          · have : readAt (root :: tl) 0 = .ok root := by simp [readAt]
            simp only [LatestHeap.Add, hK0, hlt, this, hbefore, if_false]
          · simp only [List.length_cons, List.length_append, List.length_singleton] at hlenK ⊢
            push_cast at hlenK ⊢
            omega
          · have h1 : ((root :: tl) ++ e :: disc).Perm (e :: ((root :: tl) ++ disc)) :=
              List.perm_middle
            have h3 : (e :: ((root :: tl) ++ disc)).Perm (e :: xs) := List.Perm.cons e hperm
            have h4 : (e :: xs).Perm (xs ++ [e]) := (List.perm_append_singleton e xs).symm
            exact (h1.trans h3).trans h4
          · intro r hr1 d hd
            rcases List.mem_cons.mp hd with h | h
            · have := hroot r hr1
              rw [h]; omega
            · exact hord r hr1 d h

theorem AddAll_spec (K : Int) (hK : 0 ≤ K) (ys : List ExpiredKey) :
    ∀ (xs : List ExpiredKey) (lh : LatestHeap), Selected K xs lh →
      ∃ lh1, lh.AddAll ys = .ok lh1 ∧ Selected K (xs ++ ys) lh1 := by
  induction ys with
  | nil =>
    intro xs lh hsel
    exact ⟨lh, rfl, by simpa using hsel⟩
  | cons e rest ih =>
    intro xs lh hsel
    obtain ⟨lh1, hadd, hsel1⟩ := Add_spec K hK xs lh e hsel
    obtain ⟨lh2, hall, hsel2⟩ := ih (xs ++ [e]) lh1 hsel1
    refine ⟨lh2, ?_, by simpa using hsel2⟩
    simp [LatestHeap.AddAll, hadd, hall]

theorem sortedTimes_of_split (xs kept disc : List ExpiredKey) (hperm : (kept ++ disc).Perm xs)
    (hord : ∀ r ∈ kept, ∀ d ∈ disc, r.LastAccessed ≤ d.LastAccessed) :
    sortedTimes kept = (sortedTimes xs).take kept.length := by
  have hs : sortedTimes xs = sortedTimes kept ++ sortedTimes disc := by
    apply List.eq_of_perm_of_sorted (r := fun a b : Int => a ≤ b)
    · unfold sortedTimes
      refine (List.perm_insertionSort _ _).trans ?_
      refine ((hperm.map _).symm).trans ?_
      rw [List.map_append]
      exact ((List.perm_insertionSort _ _).symm).append (List.perm_insertionSort _ _).symm
    · exact List.sorted_insertionSort _ _
    · unfold sortedTimes
      rw [List.Sorted, List.pairwise_append]
      refine ⟨List.sorted_insertionSort _ _, List.sorted_insertionSort _ _, ?_⟩
      intro a ha b hb
      have ha1 := (List.perm_insertionSort _ _).subset ha
      have hb1 := (List.perm_insertionSort _ _).subset hb
      obtain ⟨r, hr, rfl⟩ := List.mem_map.mp ha1
      obtain ⟨d, hd, rfl⟩ := List.mem_map.mp hb1
      exact hord r hr d hd
  have hl : (sortedTimes kept).length = kept.length := by
    unfold sortedTimes
    rw [List.length_insertionSort, List.length_map]
  rw [hs, ← hl, List.take_left]

/-- C1: for every bound `K ≥ 0` and every list `xs` of candidates fed one by one to `Add` on
`NewHeap K`, the run returns; the retained slice has `min K (len xs)` entries; together with a
list of discarded candidates it is a rearrangement of `xs`; no retained timestamp is after a
discarded one; the retained timestamps in ascending order are the first `min K (len xs)` of the
input timestamps in ascending order.  With `K = 0` nothing is retained, with `K ≥ len xs`
every candidate is. -/
theorem C1_AddAll_retains_stalest (K : Int) (hK : 0 ≤ K) (xs : List ExpiredKey) :
    ∃ lh, (NewHeap K).AddAll xs = .ok lh ∧
      (lh.Heap.length : Int) = min K (xs.length : Int) ∧
      (∃ discarded : List ExpiredKey, (lh.Heap ++ discarded).Perm xs ∧
        ∀ r ∈ lh.Heap, ∀ d ∈ discarded, r.LastAccessed ≤ d.LastAccessed) ∧
      sortedTimes lh.Heap = (sortedTimes xs).take lh.Heap.length ∧
      (K = 0 → lh.Heap = []) ∧
      ((xs.length : Int) ≤ K → lh.Heap.Perm xs) := by
  obtain ⟨lh, hrun, -, -, hlen, disc, hperm, hord⟩ :=
    AddAll_spec K hK xs [] (NewHeap K) (Selected_NewHeap K hK)
  simp only [List.nil_append] at hlen hperm
  refine ⟨lh, hrun, hlen, ⟨disc, hperm, hord⟩, sortedTimes_of_split xs lh.Heap disc hperm hord,
    ?_, ?_⟩
  · intro h0
    apply List.eq_nil_of_length_eq_zero
    subst h0
    have : min (0 : Int) (xs.length : Int) = 0 := by omega
    omega
  · intro hle
    have h1 := hperm.length_eq
    simp only [List.length_append] at h1
    have hd : disc = [] := List.eq_nil_of_length_eq_zero (by omega)
    simpa [hd] using hperm

/-- The statement C1 at the bound 2 and three candidates. -/
theorem C1_AddAll_retains_stalest_witness :
    (0 : Int) ≤ 2 ∧
    ∃ lh, (NewHeap 2).AddAll [⟨"a", 30⟩, ⟨"b", 10⟩, ⟨"c", 20⟩] = .ok lh ∧
      (lh.Heap.length : Int) = min 2 (([⟨"a", 30⟩, ⟨"b", 10⟩, ⟨"c", 20⟩] :
        List ExpiredKey).length : Int) ∧
      (∃ discarded : List ExpiredKey,
        (lh.Heap ++ discarded).Perm [⟨"a", 30⟩, ⟨"b", 10⟩, ⟨"c", 20⟩] ∧
        ∀ r ∈ lh.Heap, ∀ d ∈ discarded, r.LastAccessed ≤ d.LastAccessed) ∧
      sortedTimes lh.Heap = (sortedTimes [⟨"a", 30⟩, ⟨"b", 10⟩, ⟨"c", 20⟩]).take lh.Heap.length ∧
      ((2 : Int) = 0 → lh.Heap = []) ∧
      ((([⟨"a", 30⟩, ⟨"b", 10⟩, ⟨"c", 20⟩] : List ExpiredKey).length : Int) ≤ 2 →
        lh.Heap.Perm [⟨"a", 30⟩, ⟨"b", 10⟩, ⟨"c", 20⟩]) :=
  ⟨by decide, C1_AddAll_retains_stalest 2 (by decide) [⟨"a", 30⟩, ⟨"b", 10⟩, ⟨"c", 20⟩]⟩

/-! ## Theorems: the cache cell -/

theorem GetTail_of_stale_none {G V E : Type} (ci : CacheItem G V E) (now : Int) (g : G)
    (calls : Nat) (hst : ci.dataPrevious = none) :
    (now > ci.nextRefresh →
      ci.GetTail now g calls =
        { value := ci.dataActual, err := none, ci := { ci with dataPrevious := ci.dataActual },
          world := g, getterCalls := calls, launched := 1 }) ∧
    (¬ now > ci.nextRefresh →
      ci.GetTail now g calls =
        { value := ci.dataActual, err := none, ci := ci, world := g, getterCalls := calls,
          launched := 0 }) := by
  constructor
  · intro h
    simp [CacheItem.GetTail, hst, h]
  · intro h
    simp [CacheItem.GetTail, h]

theorem Get_of_warm {G V E : Type} (ci : CacheItem G V E) (v : V) (ctx : Context) (now : Int)
    (g : G) (hcur : ci.dataActual = some v) (hst : ci.dataPrevious = none) :
    ci.Get ctx now g = CacheItem.GetTail { ci with lastAccessed := now } now g 0 := by
  simp [CacheItem.Get, hst, hcur]

theorem Get_of_stale {G V E : Type} (ci : CacheItem G V E) (p : V) (ctx : Context) (now : Int)
    (g : G) (h : ci.dataPrevious = some p) :
    ci.Get ctx now g =
      { value := some p, err := none, ci := ci, world := g, getterCalls := 0, launched := 0 } := by
  simp [CacheItem.Get, h]

/-- C2 (counterexample): the cell `warmCell` holds a value, has no refresh in flight and is due at
1000; `Get` at 1000, which is at `nextRefreshAt`, takes no snapshot and launches nothing. -/
theorem C2_counterexample_at_nextRefresh :
    warmCell.dataActual = some "A" ∧ warmCell.dataPrevious = none ∧
    (1000 : Int) ≥ warmCell.nextRefresh ∧
    (warmCell.Get (Context.caller 0) 1000 ()).launched = 0 ∧
    (warmCell.Get (Context.caller 0) 1000 ()).ci.dataPrevious = none ∧
    ¬ (((warmCell.Get (Context.caller 0) 1000 ()).launched = 1 ∧
        (warmCell.Get (Context.caller 0) 1000 ()).ci.dataPrevious = warmCell.dataActual) ↔
      (1000 : Int) ≥ warmCell.nextRefresh) := by
  decide

/-- C2 (amended): for every cell that holds a value `v` and has no refresh in flight, `Get` at
time `now` returns `(v, nil)` without calling the producer; it snapshots `v` into `dataPrevious`
and launches exactly one refresh exactly when `now` is strictly after `nextRefresh`; otherwise it
launches nothing and leaves `dataPrevious` absent.  Either way only `lastAccessed` changes
besides. -/
theorem C2_Get_warm_refreshes_iff_after {G V E : Type} (ci : CacheItem G V E) (v : V)
    (ctx : Context) (now : Int) (g : G)
    (hcur : ci.dataActual = some v) (hst : ci.dataPrevious = none) :
    (ci.Get ctx now g).value = some v ∧ (ci.Get ctx now g).err = none ∧
    (ci.Get ctx now g).getterCalls = 0 ∧ (ci.Get ctx now g).world = g ∧
    (((ci.Get ctx now g).launched = 1 ∧ (ci.Get ctx now g).ci.dataPrevious = some v) ↔
      now > ci.nextRefresh) ∧
    (now > ci.nextRefresh →
      (ci.Get ctx now g).ci = { ci with lastAccessed := now, dataPrevious := some v }) ∧
    (¬ now > ci.nextRefresh →
      (ci.Get ctx now g).launched = 0 ∧ (ci.Get ctx now g).ci = { ci with lastAccessed := now }) := by
  rw [Get_of_warm ci v ctx now g hcur hst]
  obtain ⟨h1, h2⟩ :=
    GetTail_of_stale_none { ci with lastAccessed := now } now g 0 hst
  by_cases h : now > ci.nextRefresh
  · rw [h1 h]
    simp [hcur, h]
  · rw [h2 h]
    simp [hcur, h, hst]

/-- The amended C2 at `warmCell` and the time 1001. -/
theorem C2_Get_warm_refreshes_iff_after_witness :
    (warmCell.dataActual = some "A" ∧ warmCell.dataPrevious = none) ∧
    ((warmCell.Get (Context.caller 0) 1001 ()).value = some "A" ∧
    (warmCell.Get (Context.caller 0) 1001 ()).err = none ∧
    (warmCell.Get (Context.caller 0) 1001 ()).getterCalls = 0 ∧
    (warmCell.Get (Context.caller 0) 1001 ()).world = () ∧
    (((warmCell.Get (Context.caller 0) 1001 ()).launched = 1 ∧
      (warmCell.Get (Context.caller 0) 1001 ()).ci.dataPrevious = some "A") ↔
      (1001 : Int) > warmCell.nextRefresh) ∧
    ((1001 : Int) > warmCell.nextRefresh →
      (warmCell.Get (Context.caller 0) 1001 ()).ci =
        { warmCell with lastAccessed := 1001, dataPrevious := some "A" }) ∧
    (¬ (1001 : Int) > warmCell.nextRefresh →
      (warmCell.Get (Context.caller 0) 1001 ()).launched = 0 ∧
      (warmCell.Get (Context.caller 0) 1001 ()).ci = { warmCell with lastAccessed := 1001 })) :=
  ⟨⟨rfl, rfl⟩, C2_Get_warm_refreshes_iff_after warmCell "A" (Context.caller 0) 1001 () rfl rfl⟩

/-- C3: for every cell whose `dataPrevious` holds a value `p`, `Get` returns `(p, nil)`, does
not call the producer (the world is untouched), launches no refresh, and leaves the cell as it
was, `lastAccessed` included. -/
theorem C3_Get_serves_stale {G V E : Type} (ci : CacheItem G V E) (p : V) (ctx : Context)
    (now : Int) (g : G) (h : ci.dataPrevious = some p) :
    (ci.Get ctx now g).value = some p ∧ (ci.Get ctx now g).err = none ∧
    (ci.Get ctx now g).getterCalls = 0 ∧ (ci.Get ctx now g).world = g ∧
    (ci.Get ctx now g).launched = 0 ∧ (ci.Get ctx now g).ci = ci := by
  rw [Get_of_stale ci p ctx now g h]
  simp

/-- The statement C3 at `refreshingCell`. -/
theorem C3_Get_serves_stale_witness :
    refreshingCell.dataPrevious = some "A" ∧
    ((refreshingCell.Get (Context.caller 0) 5000 ()).value = some "A" ∧
    (refreshingCell.Get (Context.caller 0) 5000 ()).err = none ∧
    (refreshingCell.Get (Context.caller 0) 5000 ()).getterCalls = 0 ∧
    (refreshingCell.Get (Context.caller 0) 5000 ()).world = () ∧
    (refreshingCell.Get (Context.caller 0) 5000 ()).launched = 0 ∧
    (refreshingCell.Get (Context.caller 0) 5000 ()).ci = refreshingCell) :=
  ⟨rfl, C3_Get_serves_stale refreshingCell "A" (Context.caller 0) 5000 () rfl⟩

theorem Get_of_cold_success {G V E : Type} (ci : CacheItem G V E) (v : V) (ctx : Context)
    (now : Int) (g g1 : G)
    (hcur : ci.dataActual = none) (hst : ci.dataPrevious = none)
    (hget : ci.getter ctx g = (⟨some v, none⟩, g1)) :
    (ci.Get ctx now g).getterCalls = 1 ∧ (ci.Get ctx now g).world = g1 ∧
    (ci.Get ctx now g).value = some v ∧ (ci.Get ctx now g).err = none ∧
    (ci.Get ctx now g).ci.dataActual = some v ∧
    (ci.Get ctx now g).ci.lastUpdated = now ∧
    (ci.Get ctx now g).ci.nextRefresh = now + ci.ttl ∧
    (ci.Get ctx now g).ci.lastAccessed = now := by
  have h : ci.Get ctx now g =
      CacheItem.GetTail (CacheItem.update { ci with lastAccessed := now } (some v) now) now g1 1 := by
    simp [CacheItem.Get, hst, hcur, hget]
  rw [h]
  unfold CacheItem.GetTail
  split <;> simp [CacheItem.update]

/-- C4: for every cell without a value and without a snapshot, when the producer, called with
the caller's context in the world `g`, returns the non-nil value `v` and no error, `Get` at
time `now` calls the producer exactly once (the world moves to the producer's `g1`), returns
`(v, nil)`, and leaves `dataActual = v`, `lastUpdated = now`, `nextRefresh = now + ttl` and
`lastAccessed = now`. -/
theorem C4_Get_cold_success {G V E : Type} (ci : CacheItem G V E) (v : V) (ctx : Context)
    (now : Int) (g g1 : G)
    (hcur : ci.dataActual = none) (hst : ci.dataPrevious = none)
    (hget : ci.getter ctx g = (⟨some v, none⟩, g1)) :
    (ci.Get ctx now g).getterCalls = 1 ∧ (ci.Get ctx now g).world = g1 ∧
    (ci.Get ctx now g).value = some v ∧ (ci.Get ctx now g).err = none ∧
    (ci.Get ctx now g).ci.dataActual = some v ∧
    (ci.Get ctx now g).ci.lastUpdated = now ∧
    (ci.Get ctx now g).ci.nextRefresh = now + ci.ttl ∧
    (ci.Get ctx now g).ci.lastAccessed = now :=
  Get_of_cold_success ci v ctx now g g1 hcur hst hget

/-- The statement C4 at a new cell whose producer returns `"A"`. -/
theorem C4_Get_cold_success_witness :
    ((NewCacheItem scripted 1000 0).dataActual = none ∧
     (NewCacheItem scripted 1000 0).dataPrevious = none ∧
     (NewCacheItem scripted 1000 0).getter (Context.caller 0) [⟨some "A", none⟩]
       = (⟨some "A", none⟩, [])) ∧
    (((NewCacheItem scripted 1000 0).Get (Context.caller 0) 5 [⟨some "A", none⟩]).getterCalls = 1 ∧
    ((NewCacheItem scripted 1000 0).Get (Context.caller 0) 5 [⟨some "A", none⟩]).world = [] ∧
    ((NewCacheItem scripted 1000 0).Get (Context.caller 0) 5 [⟨some "A", none⟩]).value
      = some "A" ∧
    ((NewCacheItem scripted 1000 0).Get (Context.caller 0) 5 [⟨some "A", none⟩]).err = none ∧
    ((NewCacheItem scripted 1000 0).Get (Context.caller 0) 5 [⟨some "A", none⟩]).ci.dataActual
      = some "A" ∧
    ((NewCacheItem scripted 1000 0).Get (Context.caller 0) 5 [⟨some "A", none⟩]).ci.lastUpdated
      = 5 ∧
    ((NewCacheItem scripted 1000 0).Get (Context.caller 0) 5 [⟨some "A", none⟩]).ci.nextRefresh
      = 5 + (NewCacheItem scripted 1000 0).ttl ∧
    ((NewCacheItem scripted 1000 0).Get (Context.caller 0) 5 [⟨some "A", none⟩]).ci.lastAccessed
      = 5) :=
  ⟨⟨rfl, rfl, rfl⟩,
   C4_Get_cold_success (NewCacheItem scripted 1000 0) "A" (Context.caller 0) 5
     [⟨some "A", none⟩] [] rfl rfl rfl⟩

theorem Get_of_cold_failure {G V E : Type} (ci : CacheItem G V E) (ctx : Context) (now : Int)
    (g : G) (e : E) (hcur : ci.dataActual = none) (hst : ci.dataPrevious = none)
    (herr : (ci.getter ctx g).1.err = some e) :
    ci.Get ctx now g =
      { value := none, err := some e, ci := { ci with lastAccessed := now },
        world := (ci.getter ctx g).2, getterCalls := 1, launched := 0 } := by
  simp [CacheItem.Get, hst, hcur, herr]

theorem GetAll_of_cold_failures {G V E : Type} (calls : List (Context × Int)) :
    ∀ (ci : CacheItem G V E) (g : G), ci.dataActual = none → ci.dataPrevious = none →
      (∀ r ∈ producerRuns ci.getter g calls, r.err.isSome = true) →
      (ci.GetAll g calls).1.map (fun r => r.err)
          = (producerRuns ci.getter g calls).map (fun r => r.err) ∧
      (∀ r ∈ (ci.GetAll g calls).1,
        r.value = none ∧ r.getterCalls = 1 ∧ r.launched = 0 ∧
        r.ci.dataActual = none ∧ r.ci.dataPrevious = none ∧
        r.ci.nextRefresh = ci.nextRefresh ∧ r.ci.lastUpdated = ci.lastUpdated) ∧
      (ci.GetAll g calls).2.1.dataActual = none ∧
      (ci.GetAll g calls).2.1.dataPrevious = none ∧
      (ci.GetAll g calls).2.1.nextRefresh = ci.nextRefresh ∧
      (ci.GetAll g calls).2.1.lastUpdated = ci.lastUpdated ∧
      (ci.GetAll g calls).2.1.getter = ci.getter ∧
      (ci.GetAll g calls).2.1.ttl = ci.ttl := by
  induction calls with
  | nil =>
    intro ci g hcur hst _
    simp [CacheItem.GetAll, producerRuns, hcur, hst]
  | cons c rest ih =>
    intro ci g hcur hst hfail
    obtain ⟨ctx, now⟩ := c
    have hhead : ((ci.getter ctx g).1.err).isSome = true :=
      hfail _ (by simp [producerRuns])
    obtain ⟨e, he⟩ := Option.isSome_iff_exists.mp hhead
    have hG := Get_of_cold_failure ci ctx now g e hcur hst he
    have htail : ∀ r ∈ producerRuns ci.getter (ci.getter ctx g).2 rest, r.err.isSome = true := by
      intro r hr
      exact hfail r (by simp [producerRuns, hr])
    obtain ⟨i1, i2, i3, i4, i5, i6, i7, i8⟩ :=
      ih { ci with lastAccessed := now } (ci.getter ctx g).2 hcur hst htail
    simp only [CacheItem.GetAll, producerRuns, hG, List.map_cons, List.mem_cons]
    refine ⟨?_, ?_, i3, i4, i5, i6, i7, i8⟩
    · rw [i1, he]
    · intro r hr
      rcases hr with hr | hr
      · subst hr
        simp [hcur, hst]
      · exact i2 r hr

/-- C5: for every cell without a value and without a snapshot whose producer fails with the
error `e`, `Get` returns `(nil, e)` after one producer call, launches no refresh, and changes
only `lastAccessed`.  Consequently, for every sequence of later calls of `Get` during which the
producer keeps failing, each call invokes the producer once more and returns the error of
that invocation and no value, the cell stays without value and snapshot with `nextRefresh`
and `lastUpdated` as they were; and a call after them for which the producer returns a
non-nil `v` returns `(v, nil)`. -/
theorem C5_Get_cold_failure {G V E : Type} (ci : CacheItem G V E) (ctx : Context)
    (now : Int) (g : G) (e : E) (calls : List (Context × Int))
    (hcur : ci.dataActual = none) (hst : ci.dataPrevious = none)
    (herr : (ci.getter ctx g).1.err = some e)
    (hfail : ∀ r ∈ producerRuns ci.getter (ci.getter ctx g).2 calls, r.err.isSome = true) :
    ((ci.Get ctx now g).value = none ∧ (ci.Get ctx now g).err = some e ∧
      (ci.Get ctx now g).getterCalls = 1 ∧ (ci.Get ctx now g).launched = 0 ∧
      (ci.Get ctx now g).world = (ci.getter ctx g).2 ∧
      (ci.Get ctx now g).ci = { ci with lastAccessed := now }) ∧
    (((ci.Get ctx now g).ci.GetAll (ci.Get ctx now g).world calls).1.map (fun r => r.err)
        = (producerRuns ci.getter (ci.getter ctx g).2 calls).map (fun r => r.err) ∧
      (∀ r ∈ ((ci.Get ctx now g).ci.GetAll (ci.Get ctx now g).world calls).1,
        r.value = none ∧ r.getterCalls = 1 ∧ r.launched = 0 ∧
        r.ci.dataActual = none ∧ r.ci.dataPrevious = none ∧
        r.ci.nextRefresh = ci.nextRefresh ∧ r.ci.lastUpdated = ci.lastUpdated)) ∧
    (∀ (ctx2 : Context) (now2 : Int) (v : V) (g2 : G),
      ci.getter ctx2 ((ci.Get ctx now g).ci.GetAll (ci.Get ctx now g).world calls).2.2
          = (⟨some v, none⟩, g2) →
      (((ci.Get ctx now g).ci.GetAll (ci.Get ctx now g).world calls).2.1.Get ctx2 now2
          ((ci.Get ctx now g).ci.GetAll (ci.Get ctx now g).world calls).2.2).value = some v ∧
      (((ci.Get ctx now g).ci.GetAll (ci.Get ctx now g).world calls).2.1.Get ctx2 now2
          ((ci.Get ctx now g).ci.GetAll (ci.Get ctx now g).world calls).2.2).err = none ∧
      (((ci.Get ctx now g).ci.GetAll (ci.Get ctx now g).world calls).2.1.Get ctx2 now2
          ((ci.Get ctx now g).ci.GetAll (ci.Get ctx now g).world calls).2.2).getterCalls = 1) := by
  have hG := Get_of_cold_failure ci ctx now g e hcur hst herr
  obtain ⟨i1, i2, i3, i4, -, -, i7, -⟩ :=
    GetAll_of_cold_failures calls { ci with lastAccessed := now } (ci.getter ctx g).2
      hcur hst hfail
  rw [hG]
  refine ⟨by simp, ⟨i1, i2⟩, ?_⟩
  intro ctx2 now2 v g2 hsucc
  have h4 := Get_of_cold_success
    (CacheItem.GetAll { ci with lastAccessed := now } (ci.getter ctx g).2 calls).2.1
    v ctx2 now2 _ g2 i3 i4 (by rw [i7]; exact hsucc)
  exact ⟨h4.2.2.1, h4.2.2.2.1, h4.1⟩

/-- The statement C5 at `flakyCell`, whose producer fails with `"e1"`, then `"e2"`, then
returns `"A"`. -/
theorem C5_Get_cold_failure_witness :
    (flakyCell.dataActual = none ∧ flakyCell.dataPrevious = none ∧
      (flakyCell.getter (Context.caller 0) flakyWorld).1.err = some "e1" ∧
      ∀ r ∈ producerRuns flakyCell.getter (flakyCell.getter (Context.caller 0) flakyWorld).2
        [(Context.caller 0, 2)], r.err.isSome = true) ∧
    (flakyCell.Get (Context.caller 0) 1 flakyWorld).value = none ∧
    (flakyCell.Get (Context.caller 0) 1 flakyWorld).err = some "e1" ∧
    ((flakyCell.Get (Context.caller 0) 1 flakyWorld).ci.GetAll
        (flakyCell.Get (Context.caller 0) 1 flakyWorld).world
        [(Context.caller 0, 2)]).1.map (fun r => r.err) = [some "e2"] ∧
    (((flakyCell.Get (Context.caller 0) 1 flakyWorld).ci.GetAll
        (flakyCell.Get (Context.caller 0) 1 flakyWorld).world
        [(Context.caller 0, 2)]).2.1.Get (Context.caller 0) 3
      ((flakyCell.Get (Context.caller 0) 1 flakyWorld).ci.GetAll
        (flakyCell.Get (Context.caller 0) 1 flakyWorld).world
        [(Context.caller 0, 2)]).2.2).value = some "A" :=
  have h := C5_Get_cold_failure flakyCell (Context.caller 0) 1 flakyWorld "e1"
    [(Context.caller 0, 2)] rfl rfl rfl (by decide)
  ⟨⟨rfl, rfl, rfl, by decide⟩, h.1.1, h.1.2.1, h.2.1.1,
   (h.2.2 (Context.caller 0) 3 "A" [] rfl).1⟩

theorem refresh_of_success {G V E : Type} (ci : CacheItem G V E) (d : Option V) (t : Int)
    (g g1 : G) (hget : ci.getter (Context.backgroundWithTimeout ci.ttl) g = (⟨d, none⟩, g1)) :
    ci.refresh t g = (ci.update d t, g1) := by
  simp [CacheItem.refresh, hget]

theorem refresh_of_no_error {G V E : Type} (ci : CacheItem G V E) (t : Int) (g : G)
    (herr : (ci.getter (Context.backgroundWithTimeout ci.ttl) g).1.err = none) :
    ci.refresh t g =
      (ci.update (ci.getter (Context.backgroundWithTimeout ci.ttl) g).1.data t,
        (ci.getter (Context.backgroundWithTimeout ci.ttl) g).2) := by
  simp [CacheItem.refresh, herr]

theorem refresh_of_failure {G V E : Type} (ci : CacheItem G V E) (t : Int) (g : G) (e : E)
    (herr : (ci.getter (Context.backgroundWithTimeout ci.ttl) g).1.err = some e) :
    ci.refresh t g =
      ({ ci with dataPrevious := none },
        (ci.getter (Context.backgroundWithTimeout ci.ttl) g).2) := by
  simp [CacheItem.refresh, herr]

/-- C6: for every cell, a `refresh` whose producer returns the non-nil value `v` and no error
and which completes at time `t` leaves `dataActual = v`, `dataPrevious` absent,
`nextRefresh = t + ttl` and `lastUpdated = t`; a `Get` that follows at a time `now` not past
`t + ttl` returns `(v, nil)` without calling the producer and without launching a refresh. -/
theorem C6_refresh_success {G V E : Type} (ci : CacheItem G V E) (v : V) (t : Int) (g g1 : G)
    (ctx : Context) (now : Int) (g2 : G)
    (hget : ci.getter (Context.backgroundWithTimeout ci.ttl) g = (⟨some v, none⟩, g1))
    (hnow : now ≤ t + ci.ttl) :
    ((ci.refresh t g).1.dataActual = some v ∧ (ci.refresh t g).1.dataPrevious = none ∧
      (ci.refresh t g).1.nextRefresh = t + ci.ttl ∧ (ci.refresh t g).1.lastUpdated = t ∧
      (ci.refresh t g).2 = g1) ∧
    (((ci.refresh t g).1.Get ctx now g2).value = some v ∧
      ((ci.refresh t g).1.Get ctx now g2).err = none ∧
      ((ci.refresh t g).1.Get ctx now g2).getterCalls = 0 ∧
      ((ci.refresh t g).1.Get ctx now g2).world = g2 ∧
      ((ci.refresh t g).1.Get ctx now g2).launched = 0) := by
  rw [refresh_of_success ci (some v) t g g1 hget]
  refine ⟨by simp [CacheItem.update], ?_⟩
  have hw : (ci.update (some v) t).dataActual = some v := rfl
  have hs : (ci.update (some v) t).dataPrevious = none := rfl
  rw [Get_of_warm _ v ctx now g2 hw hs]
  have hn : ¬ now > t + ci.ttl := by omega
  simp [CacheItem.GetTail, CacheItem.update, hn]

/-- The statement C6 in the scenario of the specification: the producer yields `"A"` then
`"B"` and `ttl` is 1000.  `Get` at 0 returns `"A"`; `Get` at 1100 launches the refresh and
still returns `"A"`, which leaves the cell `failingCell` with `"B"` still to come; after the
refresh has completed at 1150, `Get` at 1200 returns `"B"`. -/
theorem C6_refresh_success_witness :
    ((NewCacheItem scripted 1000 0).Get (Context.caller 0) 0
        [⟨some "A", none⟩, ⟨some "B", none⟩]).value = some "A" ∧
    ((Sys.fresh scripted 1000 0 [⟨some "A", none⟩, ⟨some "B", none⟩]).run
        [Event.get (Context.caller 0) 0]).map
      (fun s => ((s.ci.Get (Context.caller 0) 1100 s.world).value,
        (s.ci.Get (Context.caller 0) 1100 s.world).launched)) = some (some "A", 1) ∧
    (Sys.fresh scripted 1000 0 [⟨some "A", none⟩, ⟨some "B", none⟩]).run
        [Event.get (Context.caller 0) 0, Event.get (Context.caller 0) 1100]
      = some { ci := failingCell, world := [⟨some "B", none⟩], pending := 1 } ∧
    (failingCell.getter (Context.backgroundWithTimeout failingCell.ttl) [⟨some "B", none⟩]
        = (⟨some "B", none⟩, []) ∧ (1200 : Int) ≤ 1150 + failingCell.ttl) ∧
    ((failingCell.refresh 1150 [⟨some "B", none⟩]).1.dataActual = some "B" ∧
      (failingCell.refresh 1150 [⟨some "B", none⟩]).1.dataPrevious = none ∧
      (failingCell.refresh 1150 [⟨some "B", none⟩]).1.nextRefresh = 1150 + failingCell.ttl ∧
      (failingCell.refresh 1150 [⟨some "B", none⟩]).1.lastUpdated = 1150 ∧
      (failingCell.refresh 1150 [⟨some "B", none⟩]).2 = []) ∧
    (((failingCell.refresh 1150 [⟨some "B", none⟩]).1.Get (Context.caller 0) 1200 []).value
        = some "B" ∧
      ((failingCell.refresh 1150 [⟨some "B", none⟩]).1.Get (Context.caller 0) 1200 []).err
        = none ∧
      ((failingCell.refresh 1150 [⟨some "B", none⟩]).1.Get (Context.caller 0) 1200
        []).getterCalls = 0 ∧
      ((failingCell.refresh 1150 [⟨some "B", none⟩]).1.Get (Context.caller 0) 1200 []).world
        = [] ∧
      ((failingCell.refresh 1150 [⟨some "B", none⟩]).1.Get (Context.caller 0) 1200
        []).launched = 0) :=
  have h := C6_refresh_success failingCell "B" 1150 [⟨some "B", none⟩] []
    (Context.caller 0) 1200 [] rfl (by decide)
  ⟨by decide, by decide, rfl, ⟨rfl, by decide⟩, h.1, h.2⟩

/-- C7: for every cell, a `refresh` whose producer fails changes only `dataPrevious`, which
becomes absent, so that `InRefresh` is false afterwards; `dataActual`, `nextRefresh`,
`lastUpdated` and `lastAccessed` are what they were; the result of `refresh` is the cell and
the world, it carries no error. -/
theorem C7_refresh_failure {G V E : Type} (ci : CacheItem G V E) (t : Int) (g : G) (e : E)
    (herr : (ci.getter (Context.backgroundWithTimeout ci.ttl) g).1.err = some e) :
    (ci.refresh t g).1 = { ci with dataPrevious := none } ∧
    (ci.refresh t g).1.InRefresh = false ∧
    (ci.refresh t g).1.dataActual = ci.dataActual ∧
    (ci.refresh t g).1.nextRefresh = ci.nextRefresh ∧
    (ci.refresh t g).1.lastUpdated = ci.lastUpdated ∧
    (ci.refresh t g).1.lastAccessed = ci.lastAccessed := by
  rw [refresh_of_failure ci t g e herr]
  simp [CacheItem.InRefresh]

/-- The statement C7 at a cell that holds `"A"`, has a refresh in flight and a failing
producer. -/
theorem C7_refresh_failure_witness :
    (failingCell.getter (Context.backgroundWithTimeout failingCell.ttl) []).1.err
      = some "empty" ∧
    ((failingCell.refresh 1150 []).1 = { failingCell with dataPrevious := none } ∧
    (failingCell.refresh 1150 []).1.InRefresh = false ∧
    (failingCell.refresh 1150 []).1.dataActual = failingCell.dataActual ∧
    (failingCell.refresh 1150 []).1.nextRefresh = failingCell.nextRefresh ∧
    (failingCell.refresh 1150 []).1.lastUpdated = failingCell.lastUpdated ∧
    (failingCell.refresh 1150 []).1.lastAccessed = failingCell.lastAccessed) :=
  ⟨rfl, C7_refresh_failure failingCell 1150 [] "empty" rfl⟩

theorem step_keeps_due {G V E : Type} (t0 nr : Int) (v : V) (hnr : nr < t0) (s s1 : Sys G V E)
    (ev : Event)
    (hcur : s.ci.dataActual = some v)
    (hone : (s.ci.dataPrevious = some v ∧ s.pending = 1) ∨
      (s.ci.dataPrevious = none ∧ s.pending = 0))
    (hnext : s.ci.nextRefresh = nr)
    (hev : match ev with
      | Event.get _ now => t0 ≤ now
      | Event.refreshDone _ =>
        ((s.ci.getter (Context.backgroundWithTimeout s.ci.ttl) s.world).1.err).isSome = true
      | Event.invalidate => False)
    (hstep : s.step ev = some s1) :
    s1.ci.dataActual = some v ∧
    ((s1.ci.dataPrevious = some v ∧ s1.pending = 1) ∨
      (s1.ci.dataPrevious = none ∧ s1.pending = 0)) ∧
    s1.ci.nextRefresh = nr ∧
    (∀ t, ev = Event.refreshDone t → s1.ci.dataPrevious = none ∧ s1.pending = 0) ∧
    (∀ c t, ev = Event.get c t → s1.ci.dataPrevious = some v ∧ s1.pending = 1) := by
  cases ev with
  | get ctx now =>
    simp only at hev
    simp only [Sys.step, Option.some.injEq] at hstep
    subst hstep
    rcases hone with ⟨hst, hp⟩ | ⟨hst, hp⟩
    · rw [Get_of_stale s.ci v ctx now s.world hst]
      exact ⟨hcur, Or.inl ⟨hst, hp⟩, hnext, fun t h => (by cases h), fun _ _ _ => ⟨hst, hp⟩⟩
    · rw [Get_of_warm s.ci v ctx now s.world hcur hst]
      have hgt : now > s.ci.nextRefresh := by omega
      rw [(GetTail_of_stale_none { s.ci with lastAccessed := now } now s.world 0 hst).1 hgt]
      have hp1 : s.pending + 1 = 1 := by omega
      exact ⟨hcur, Or.inl ⟨hcur, hp1⟩, hnext, fun t h => (by cases h),
        fun _ _ _ => ⟨hcur, hp1⟩⟩
  | refreshDone now =>
    simp only at hev
    obtain ⟨e, he⟩ := Option.isSome_iff_exists.mp hev
    by_cases hp : s.pending = 0
    · simp [Sys.step, hp] at hstep
    · simp only [Sys.step, hp, if_false, Option.some.injEq] at hstep
      subst hstep
      rw [refresh_of_failure s.ci now s.world e he]
      have hp0 : s.pending - 1 = 0 := by
        rcases hone with ⟨-, h⟩ | ⟨-, h⟩ <;> omega
      exact ⟨hcur, Or.inr ⟨rfl, hp0⟩, hnext, fun _ _ => ⟨rfl, hp0⟩, fun c t h => (by cases h)⟩
  | invalidate => exact absurd hev (by simp)

theorem run_keeps_due {G V E : Type} (t0 nr : Int) (v : V) (hnr : nr < t0) (ev : Event)
    (post : List Event) (pre : List Event) :
    ∀ s : Sys G V E, s.ci.dataActual = some v →
      ((s.ci.dataPrevious = some v ∧ s.pending = 1) ∨
        (s.ci.dataPrevious = none ∧ s.pending = 0)) →
      s.ci.nextRefresh = nr →
      GetsAndFailedRefreshes t0 s (pre ++ ev :: post) →
      ∃ s1, s.run pre = some s1 ∧ s1.ci.dataActual = some v ∧
        ((s1.ci.dataPrevious = some v ∧ s1.pending = 1) ∨
          (s1.ci.dataPrevious = none ∧ s1.pending = 0)) ∧
        s1.ci.nextRefresh = nr ∧ GetsAndFailedRefreshes t0 s1 (ev :: post) ∧
        (∀ pre1 t, pre = pre1 ++ [Event.refreshDone t] →
          s1.ci.dataPrevious = none ∧ s1.pending = 0) ∧
        (∀ pre1 c t, pre = pre1 ++ [Event.get c t] →
          s1.ci.dataPrevious = some v ∧ s1.pending = 1) := by
  induction pre with
  | nil =>
    intro s hcur hone hnext htr
    refine ⟨s, rfl, hcur, hone, hnext, htr, ?_, ?_⟩
    · intro pre1 t h
      exact absurd h (by simp)
    · intro pre1 c t h
      exact absurd h (by simp)
  | cons e rest ih =>
    intro s hcur hone hnext htr
    simp only [List.cons_append, GetsAndFailedRefreshes] at htr
    obtain ⟨hev, hrest⟩ := htr
    cases hs : s.step e with
    | none => simp [hs] at hrest
    | some s1 =>
      simp only [hs] at hrest
      obtain ⟨h1, h2, h3, h4, h5⟩ := step_keeps_due t0 nr v hnr s s1 e hcur hone hnext hev hs
      obtain ⟨s2, hrun, k1, k2, k3, k4, k5, k6⟩ := ih s1 h1 h2 h3 hrest
      refine ⟨s2, by simp [Sys.run, hs, hrun], k1, k2, k3, k4, ?_, ?_⟩
      · intro pre1 t h
        cases pre1 with
        | nil =>
          simp only [List.nil_append, List.cons.injEq] at h
          obtain ⟨he, hr⟩ := h
          subst hr
          simp only [Sys.run, Option.some.injEq] at hrun
          subst hrun
          exact h4 t he
        | cons a pre2 =>
          simp only [List.cons_append, List.cons.injEq] at h
          exact k5 pre2 t h.2
      · intro pre1 c t h
        cases pre1 with
        | nil =>
          simp only [List.nil_append, List.cons.injEq] at h
          obtain ⟨he, hr⟩ := h
          subst hr
          simp only [Sys.run, Option.some.injEq] at hrun
          subst hrun
          exact h5 c t he
        | cons a pre2 =>
          simp only [List.cons_append, List.cons.injEq] at h
          exact k6 pre2 c t h.2

/-- C8: let a cell hold `v` with no refresh in flight or outstanding, and let a `Get` at `t0`
launch a refresh.  Take any later trace made only of calls of `Get` at times not before `t0` (so
in particular at non-decreasing times from `t0` on) and of failing refresh completions, and any
call of `Get` in it.  That call is reached in a state where `dataActual = v`, `nextRefresh` is
what it was, and either the snapshot is `v` and one refresh is outstanding or the snapshot is
absent and none is.  It returns `(v, nil)` without calling the producer and leaves the snapshot
`v` with exactly one refresh outstanding; when it finds no snapshot it launches that refresh
itself.  When the step just before it is a failing completion, it finds the snapshot absent,
`InRefresh` false and nothing outstanding, and launches a new refresh: the retry. -/
theorem C8_retry_on_next_access {G V E : Type} (ci : CacheItem G V E) (v : V) (ctx0 : Context)
    (t0 : Int) (g0 : G) (pre : List Event) (ctx : Context) (now : Int)
    (post : List Event)
    (hcur : ci.dataActual = some v) (hst : ci.dataPrevious = none)
    (htrig : (ci.Get ctx0 t0 g0).launched = 1)
    (htrace : GetsAndFailedRefreshes t0
      { ci := (ci.Get ctx0 t0 g0).ci, world := (ci.Get ctx0 t0 g0).world, pending := 1 }
      (pre ++ Event.get ctx now :: post)) :
    ∃ s : Sys G V E,
      Sys.run { ci := (ci.Get ctx0 t0 g0).ci, world := (ci.Get ctx0 t0 g0).world,
                pending := 1 } pre = some s ∧
      s.ci.dataActual = some v ∧ s.ci.nextRefresh = ci.nextRefresh ∧
      ((s.ci.dataPrevious = some v ∧ s.pending = 1) ∨
        (s.ci.dataPrevious = none ∧ s.pending = 0)) ∧
      (s.ci.Get ctx now s.world).value = some v ∧
      (s.ci.Get ctx now s.world).err = none ∧
      (s.ci.Get ctx now s.world).getterCalls = 0 ∧
      (s.ci.Get ctx now s.world).ci.dataPrevious = some v ∧
      s.pending + (s.ci.Get ctx now s.world).launched = 1 ∧
      (s.ci.dataPrevious = none → (s.ci.Get ctx now s.world).launched = 1) ∧
      (∀ pre1 t, pre = pre1 ++ [Event.refreshDone t] →
        s.ci.dataPrevious = none ∧ s.ci.InRefresh = false ∧ s.pending = 0 ∧
        (s.ci.Get ctx now s.world).launched = 1) := by
  have hdue : ci.nextRefresh < t0 := by
    rw [Get_of_warm ci v ctx0 t0 g0 hcur hst] at htrig
    by_contra hcon
    have hn : ¬ t0 > ci.nextRefresh := by omega
    rw [(GetTail_of_stale_none { ci with lastAccessed := t0 } t0 g0 0 hst).2 hn] at htrig
    simp at htrig
  have hgt : t0 > ci.nextRefresh := by omega
  have hG : ci.Get ctx0 t0 g0 =
      { value := some v, err := none,
        ci := { ci with lastAccessed := t0, dataPrevious := some v },
        world := g0, getterCalls := 0, launched := 1 } := by
    rw [Get_of_warm ci v ctx0 t0 g0 hcur hst]
    rw [(GetTail_of_stale_none { ci with lastAccessed := t0 } t0 g0 0 hst).1 hgt]
    simp [hcur]
  rw [hG] at htrace ⊢
  obtain ⟨s, hrun, h1, h2, h3, h4, h5, -⟩ :=
    run_keeps_due t0 ci.nextRefresh v hdue (Event.get ctx now) post pre
      { ci := { ci with lastAccessed := t0, dataPrevious := some v }, world := g0,
        pending := 1 } hcur (Or.inl ⟨rfl, rfl⟩) rfl htrace
  simp only [GetsAndFailedRefreshes] at h4
  have hgt2 : now > s.ci.nextRefresh := by omega
  have hlaunch : s.ci.dataPrevious = none →
      s.ci.Get ctx now s.world =
        { value := some v, err := none,
          ci := { s.ci with lastAccessed := now, dataPrevious := some v },
          world := s.world, getterCalls := 0, launched := 1 } := by
    intro hn
    rw [Get_of_warm s.ci v ctx now s.world h1 hn]
    rw [(GetTail_of_stale_none { s.ci with lastAccessed := now } now s.world 0 hn).1 hgt2]
    simp [h1]
  refine ⟨s, hrun, h1, h3, h2, ?_⟩
  rcases h2 with ⟨hs, hp⟩ | ⟨hs, hp⟩
  · rw [Get_of_stale s.ci v ctx now s.world hs]
    refine ⟨rfl, rfl, rfl, hs, by simp [hp], ?_, ?_⟩
    · intro hn
      rw [hs] at hn
      exact absurd hn (by simp)
    · intro pre1 t hpre
      have := (h5 pre1 t hpre).1
      rw [hs] at this
      exact absurd this (by simp)
  · rw [hlaunch hs]
    refine ⟨rfl, rfl, rfl, rfl, by simp [hp], fun _ => rfl, ?_⟩
    intro pre1 t _
    exact ⟨hs, by simp [CacheItem.InRefresh, hs], hp, rfl⟩

/-- The statement C8 at `dueCell` with a producer that always fails: the `Get` at 1100 launches
a refresh, that refresh fails at 1200, and the `Get` at 1300 finds the snapshot absent, still
returns `"A"` and launches the next attempt. -/
theorem C8_retry_on_next_access_witness :
    (dueCell.dataActual = some "A" ∧ dueCell.dataPrevious = none ∧
      (dueCell.Get (Context.caller 0) 1100 []).launched = 1 ∧
      GetsAndFailedRefreshes 1100
        { ci := (dueCell.Get (Context.caller 0) 1100 []).ci,
          world := (dueCell.Get (Context.caller 0) 1100 []).world, pending := 1 }
        ([Event.refreshDone 1200] ++ Event.get (Context.caller 1) 1300 ::
          [Event.refreshDone 1400, Event.get (Context.caller 2) 1500])) ∧
    ∃ s : Sys (List (GetterResult String String)) String String,
      Sys.run { ci := (dueCell.Get (Context.caller 0) 1100 []).ci,
                world := (dueCell.Get (Context.caller 0) 1100 []).world,
                pending := 1 } [Event.refreshDone 1200] = some s ∧
      s.ci.dataActual = some "A" ∧ s.ci.nextRefresh = dueCell.nextRefresh ∧
      ((s.ci.dataPrevious = some "A" ∧ s.pending = 1) ∨
        (s.ci.dataPrevious = none ∧ s.pending = 0)) ∧
      (s.ci.Get (Context.caller 1) 1300 s.world).value = some "A" ∧
      (s.ci.Get (Context.caller 1) 1300 s.world).err = none ∧
      (s.ci.Get (Context.caller 1) 1300 s.world).getterCalls = 0 ∧
      (s.ci.Get (Context.caller 1) 1300 s.world).ci.dataPrevious = some "A" ∧
      s.pending + (s.ci.Get (Context.caller 1) 1300 s.world).launched = 1 ∧
      (s.ci.dataPrevious = none → (s.ci.Get (Context.caller 1) 1300 s.world).launched = 1) ∧
      (∀ pre1 t, [Event.refreshDone 1200] = pre1 ++ [Event.refreshDone t] →
        s.ci.dataPrevious = none ∧ s.ci.InRefresh = false ∧ s.pending = 0 ∧
        (s.ci.Get (Context.caller 1) 1300 s.world).launched = 1) :=
  have htrace : GetsAndFailedRefreshes 1100
      { ci := (dueCell.Get (Context.caller 0) 1100 []).ci,
        world := (dueCell.Get (Context.caller 0) 1100 []).world, pending := 1 }
      ([Event.refreshDone 1200] ++ Event.get (Context.caller 1) 1300 ::
        [Event.refreshDone 1400, Event.get (Context.caller 2) 1500]) :=
    ⟨rfl, ⟨by decide, ⟨rfl, ⟨by decide, trivial⟩⟩⟩⟩
  ⟨⟨rfl, rfl, rfl, htrace⟩,
   C8_retry_on_next_access dueCell "A" (Context.caller 0) 1100 [] [Event.refreshDone 1200]
     (Context.caller 1) 1300 [Event.refreshDone 1400, Event.get (Context.caller 2) 1500]
     rfl rfl rfl htrace⟩

theorem GetAll_of_stale {G V E : Type} (p : V) (calls : List (Context × Int)) :
    ∀ (ci : CacheItem G V E) (g : G), ci.dataPrevious = some p →
      ∀ r ∈ (ci.GetAll g calls).1,
        r.value = some p ∧ r.err = none ∧ r.launched = 0 ∧ r.getterCalls = 0 ∧ r.ci = ci := by
  induction calls with
  | nil =>
    intro ci g _ r hr
    simp [CacheItem.GetAll] at hr
  | cons c rest ih =>
    intro ci g hst r hr
    obtain ⟨ctx, now⟩ := c
    simp only [CacheItem.GetAll, Get_of_stale ci p ctx now g hst, List.mem_cons] at hr
    rcases hr with hr | hr
    · subst hr
      simp
    · exact ih ci g hst r hr

theorem Get_without_snapshot {G V E : Type} (ci : CacheItem G V E) (ctx : Context) (now : Int)
    (g : G) (hst : ci.dataPrevious = none)
    (hnn : ∀ c w, (ci.getter c w).1.err = none → (ci.getter c w).1.data.isSome = true) :
    (ci.Get ctx now g).ci.getter = ci.getter ∧
    (((ci.Get ctx now g).launched = 0 ∧ (ci.Get ctx now g).ci.dataPrevious = none) ∨
     ((ci.Get ctx now g).launched = 1 ∧
       ∃ p, (ci.Get ctx now g).ci.dataPrevious = some p ∧
         (ci.Get ctx now g).ci.dataActual = some p ∧ (ci.Get ctx now g).value = some p)) := by
  cases hcur : ci.dataActual with
  | some v =>
    rw [Get_of_warm ci v ctx now g hcur hst]
    obtain ⟨h1, h2⟩ := GetTail_of_stale_none { ci with lastAccessed := now } now g 0 hst
    by_cases h : now > ci.nextRefresh
    · rw [h1 h]
      exact ⟨rfl, Or.inr ⟨rfl, v, hcur, hcur, hcur⟩⟩
    · rw [h2 h]
      exact ⟨rfl, Or.inl ⟨rfl, hst⟩⟩
  | none =>
    cases herr : (ci.getter ctx g).1.err with
    | some e =>
      rw [Get_of_cold_failure ci ctx now g e hcur hst herr]
      exact ⟨rfl, Or.inl ⟨rfl, hst⟩⟩
    | none =>
      obtain ⟨d, hd⟩ := Option.isSome_iff_exists.mp (hnn ctx g herr)
      have hG : ci.Get ctx now g =
          CacheItem.GetTail (CacheItem.update { ci with lastAccessed := now } (some d) now)
            now (ci.getter ctx g).2 1 := by
        simp [CacheItem.Get, hst, hcur, herr, hd]
      rw [hG]
      obtain ⟨h1, h2⟩ := GetTail_of_stale_none
        (CacheItem.update { ci with lastAccessed := now } (some d) now) now
        (ci.getter ctx g).2 1 rfl
      by_cases h : now > (CacheItem.update { ci with lastAccessed := now } (some d) now).nextRefresh
      · rw [h1 h]
        exact ⟨rfl, Or.inr ⟨rfl, d, rfl, rfl, rfl⟩⟩
      · rw [h2 h]
        exact ⟨rfl, Or.inl ⟨rfl, rfl⟩⟩

theorem step_keeps_one {G V E : Type} (getter : LiveGetter G V E)
    (hnn : ∀ c w, (getter c w).1.err = none → (getter c w).1.data.isSome = true)
    (s s1 : Sys G V E) (ev : Event) (hinv : OneInFlight getter s)
    (hev : ev ≠ Event.invalidate) (hstep : s.step ev = some s1) :
    OneInFlight getter s1 := by
  obtain ⟨hg, hcase⟩ := hinv
  cases ev with
  | get ctx now =>
    simp only [Sys.step, Option.some.injEq] at hstep
    subst hstep
    rcases hcase with ⟨p, hp, hcur, hpend⟩ | ⟨hst, hpend⟩
    · rw [Get_of_stale s.ci p ctx now s.world hp]
      exact ⟨hg, Or.inl ⟨p, hp, hcur, by simpa using hpend⟩⟩
    · obtain ⟨k1, k2⟩ := Get_without_snapshot s.ci ctx now s.world hst (by rw [hg]; exact hnn)
      refine ⟨by rw [← hg]; exact k1, ?_⟩
      rcases k2 with ⟨hl, hs⟩ | ⟨hl, p, hs, ha, -⟩
      · exact Or.inr ⟨hs, by simp [hl, hpend]⟩
      · exact Or.inl ⟨p, hs, ha, by simp [hl, hpend]⟩
  | refreshDone now =>
    by_cases hp : s.pending = 0
    · simp [Sys.step, hp] at hstep
    · simp only [Sys.step, hp, if_false, Option.some.injEq] at hstep
      subst hstep
      rcases hcase with ⟨p, -, -, hpend⟩ | ⟨-, hpend⟩
      · cases herr : (s.ci.getter (Context.backgroundWithTimeout s.ci.ttl) s.world).1.err with
        | some e =>
          rw [refresh_of_failure s.ci now s.world e herr]
          exact ⟨hg, Or.inr ⟨rfl, by simp [hpend]⟩⟩
        | none =>
          rw [refresh_of_no_error s.ci now s.world herr]
          exact ⟨hg, Or.inr ⟨rfl, by simp [hpend]⟩⟩
      · exact absurd hpend hp
  | invalidate => exact absurd rfl hev

theorem run_keeps_one {G V E : Type} (getter : LiveGetter G V E)
    (hnn : ∀ c w, (getter c w).1.err = none → (getter c w).1.data.isSome = true)
    (evs : List Event) :
    ∀ s s1 : Sys G V E, OneInFlight getter s → Event.invalidate ∉ evs →
      s.run evs = some s1 → OneInFlight getter s1 := by
  induction evs with
  | nil =>
    intro s s1 hinv _ hrun
    simp only [Sys.run, Option.some.injEq] at hrun
    exact hrun ▸ hinv
  | cons ev rest ih =>
    intro s s1 hinv hni hrun
    cases hs : s.step ev with
    | none => simp [Sys.run, hs] at hrun
    | some s2 =>
      simp only [Sys.run, hs] at hrun
      have hev : ev ≠ Event.invalidate := fun h => hni (by simp [h])
      exact ih s2 s1 (step_keeps_one getter hnn s s2 ev hinv hev hs)
        (fun h => hni (List.mem_cons_of_mem _ h)) hrun

/-- C9: start from a cell just built by `NewCacheItem` whose producer never returns a nil value
without an error, and take any sequence of calls of `Get` (at any times, so at non-decreasing
times too) and refresh completions, without `Invalidate`.  In the state reached: a snapshot is
present exactly when one refresh is outstanding, and is absent exactly when none is; never
more than one is outstanding; `InRefresh` is true exactly when one is outstanding; while one is
outstanding the snapshot is the value held and every `Get` returns it, calls no producer,
launches nothing and changes nothing; and a `Get` that launches a refresh does so from a state
with none outstanding, returns a non-nil value, and every `Get` after it, as long as no
completion intervenes, returns that same value and launches nothing. -/
theorem C9_at_most_one_refresh_in_flight {G V E : Type} (getter : LiveGetter G V E)
    (ttl t0 : Int) (g0 : G) (evs : List Event) (s : Sys G V E)
    (hnn : ∀ c w, (getter c w).1.err = none → (getter c w).1.data.isSome = true)
    (hni : Event.invalidate ∉ evs)
    (hrun : (Sys.fresh getter ttl t0 g0).run evs = some s) :
    (s.ci.dataPrevious.isSome = true ↔ s.pending = 1) ∧
    (s.ci.dataPrevious = none ↔ s.pending = 0) ∧
    s.pending ≤ 1 ∧
    (s.ci.InRefresh = true ↔ s.pending = 1) ∧
    (s.pending = 1 → s.ci.dataPrevious = s.ci.dataActual ∧
      ∀ (ctx : Context) (now : Int),
        (s.ci.Get ctx now s.world).value = s.ci.dataActual ∧
        (s.ci.Get ctx now s.world).value.isSome = true ∧
        (s.ci.Get ctx now s.world).err = none ∧
        (s.ci.Get ctx now s.world).getterCalls = 0 ∧
        (s.ci.Get ctx now s.world).launched = 0 ∧
        (s.ci.Get ctx now s.world).ci = s.ci) ∧
    (∀ (ctx : Context) (now : Int), (s.ci.Get ctx now s.world).launched = 1 →
      s.pending = 0 ∧ (s.ci.Get ctx now s.world).value.isSome = true ∧
      ∀ (calls : List (Context × Int)),
        ∀ r ∈ ((s.ci.Get ctx now s.world).ci.GetAll (s.ci.Get ctx now s.world).world calls).1,
          r.value = (s.ci.Get ctx now s.world).value ∧ r.err = none ∧
          r.launched = 0 ∧ r.getterCalls = 0) := by
  have hinit : OneInFlight getter (Sys.fresh getter ttl t0 g0) :=
    ⟨rfl, Or.inr ⟨rfl, rfl⟩⟩
  obtain ⟨hg, hcase⟩ := run_keeps_one getter hnn evs _ s hinit hni hrun
  rcases hcase with ⟨p, hp, hcur, hpend⟩ | ⟨hst, hpend⟩
  · refine ⟨by simp [hp, hpend], by simp [hp, hpend], by omega,
      by simp [CacheItem.InRefresh, hp, hpend], ?_, ?_⟩
    · intro _
      refine ⟨by rw [hp, hcur], ?_⟩
      intro ctx now
      rw [Get_of_stale s.ci p ctx now s.world hp]
      simp [hcur]
    · intro ctx now hl
      rw [Get_of_stale s.ci p ctx now s.world hp] at hl
      simp at hl
  · refine ⟨by simp [hst, hpend], by simp [hst, hpend], by omega,
      by simp [CacheItem.InRefresh, hst, hpend], ?_, ?_⟩
    · intro h1
      omega
    · intro ctx now hl
      obtain ⟨-, k2⟩ := Get_without_snapshot s.ci ctx now s.world hst (by rw [hg]; exact hnn)
      rcases k2 with ⟨hl0, -⟩ | ⟨-, p, hs, -, hv⟩
      · omega
      · refine ⟨hpend, by simp [hv], ?_⟩
        intro calls r hr
        obtain ⟨a, b, c, d, -⟩ := GetAll_of_stale p calls _ _ hs r hr
        exact ⟨by rw [a, hv], b, c, d⟩

/-- The statement C9 at a cell with the producer `countingGetter`, after `Get` at 0 and `Get`
at 1100: one refresh is outstanding, the snapshot is present, and `Get` returns the value
held. -/
theorem C9_at_most_one_refresh_in_flight_witness :
    ((∀ c w, (countingGetter c w).1.err = none → (countingGetter c w).1.data.isSome = true) ∧
      Event.invalidate ∉ [Event.get (Context.caller 0) 0, Event.get (Context.caller 0) 1100] ∧
      (Sys.fresh countingGetter 1000 0 0).run
          [Event.get (Context.caller 0) 0, Event.get (Context.caller 0) 1100]
        = some { ci := countingRefreshing, world := 1, pending := 1 }) ∧
    (countingRefreshing.dataPrevious.isSome = true ↔ 1 = 1) ∧
    (countingRefreshing.InRefresh = true ↔ 1 = 1) ∧
    (countingRefreshing.Get (Context.caller 1) 1200 1).value = countingRefreshing.dataActual ∧
    (countingRefreshing.Get (Context.caller 1) 1200 1).launched = 0 :=
  have h := C9_at_most_one_refresh_in_flight countingGetter 1000 0 0
    [Event.get (Context.caller 0) 0, Event.get (Context.caller 0) 1100]
    { ci := countingRefreshing, world := 1, pending := 1 }
    (fun _ _ _ => rfl) (by decide) rfl
  ⟨⟨fun _ _ _ => rfl, by decide, rfl⟩, h.1, h.2.2.2.1,
   ((h.2.2.2.2.1 rfl).2 (Context.caller 1) 1200).1,
   ((h.2.2.2.2.1 rfl).2 (Context.caller 1) 1200).2.2.2.2.1⟩

/-! ## Theorems: the cache bucket -/

theorem foldl_mapDelete {G V E : Type} (keys : List String) :
    ∀ data : List (String × CacheItem G V E),
      keys.foldl mapDelete data = data.filter (fun p => decide (p.1 ∉ keys)) := by
  induction keys with
  | nil =>
    intro data
    simp
  | cons k ks ih =>
    intro data
    rw [List.foldl_cons, ih, mapDelete, List.filter_filter]
    apply List.filter_congr
    intro p _
    by_cases h1 : p.1 = k <;> by_cases h2 : p.1 ∈ ks <;> simp [h1, h2]

theorem eq_of_fst_eq_of_nodup {G V E : Type} (l : List (String × CacheItem G V E))
    (hnd : (l.map Prod.fst).Nodup) (p q : String × CacheItem G V E)
    (hp : p ∈ l) (hq : q ∈ l) (h : p.1 = q.1) : p = q := by
  induction l with
  | nil => simp at hp
  | cons a t ih =>
    simp only [List.map_cons, List.nodup_cons, List.mem_map, not_exists, not_and] at hnd
    rcases List.mem_cons.mp hp with hp | hp <;> rcases List.mem_cons.mp hq with hq | hq
    · rw [hp, hq]
    · exact absurd (by rw [hp] at h; exact h.symm) (hnd.1 q hq)
    · exact absurd (by rw [hq] at h; exact h) (hnd.1 p hp)
    · exact ih hnd.2 hp hq

theorem sweep_split {G V E : Type} (data : List (String × CacheItem G V E))
    (hnd : (data.map Prod.fst).Nodup) (H disc : List ExpiredKey)
    (hperm : (H ++ disc).Perm (data.map toExpiredKey)) :
    (∀ p ∈ data, p.1 ∈ H.map ExpiredKey.Key ↔ toExpiredKey p ∈ H) ∧
    (∀ p ∈ data, toExpiredKey p ∉ H → toExpiredKey p ∈ disc) ∧
    (data.filter (fun p => decide (p.1 ∉ H.map ExpiredKey.Key))).length = disc.length := by
  have hmem : ∀ p ∈ data, p.1 ∈ H.map ExpiredKey.Key ↔ toExpiredKey p ∈ H := by
    intro p hp
    constructor
    · intro hk
      obtain ⟨h, hh, hkey⟩ := List.mem_map.mp hk
      have hin : h ∈ data.map toExpiredKey := hperm.subset (List.mem_append_left _ hh)
      obtain ⟨q, hq, hqh⟩ := List.mem_map.mp hin
      have hfst : q.1 = p.1 := by rw [← hkey, ← hqh]; rfl
      have := eq_of_fst_eq_of_nodup data hnd q p hq hp hfst
      rw [← this, hqh]
      exact hh
    · intro hh
      exact List.mem_map.mpr ⟨toExpiredKey p, hh, rfl⟩
  have hdisc : ∀ p ∈ data, toExpiredKey p ∉ H → toExpiredKey p ∈ disc := by
    intro p hp hn
    have : toExpiredKey p ∈ H ++ disc := hperm.symm.subset (List.mem_map.mpr ⟨p, hp, rfl⟩)
    rcases List.mem_append.mp this with h | h
    · exact absurd h hn
    · exact h
  refine ⟨hmem, hdisc, ?_⟩
  have hnd2 : (data.map toExpiredKey).Nodup := by
    apply List.Nodup.of_map ExpiredKey.Key
    rw [List.map_map]
    exact hnd
  have hnd3 : (H ++ disc).Nodup := hperm.nodup_iff.mpr hnd2
  have hdisj := List.disjoint_of_nodup_append hnd3
  have e1 : data.filter (fun p => decide (p.1 ∉ H.map ExpiredKey.Key))
      = data.filter ((fun x => decide (x ∉ H)) ∘ toExpiredKey) := by
    apply List.filter_congr
    intro p hp
    have := hmem p hp
    simp only [Function.comp, decide_not, Bool.not_eq_eq_eq_not, Bool.not_not, decide_eq_decide]
    exact this
  rw [e1, ← List.length_map _ toExpiredKey, ← List.filter_map]
  have e2 : ((data.map toExpiredKey).filter (fun x => decide (x ∉ H))).Perm
      ((H ++ disc).filter (fun x => decide (x ∉ H))) := (hperm.filter _).symm
  rw [e2.length_eq, List.filter_append]
  have e3 : H.filter (fun x => decide (x ∉ H)) = [] := by
    rw [List.filter_eq_nil_iff]
    intro a ha
    simp [ha]
  have e4 : disc.filter (fun x => decide (x ∉ H)) = disc := by
    rw [List.filter_eq_self]
    intro a ha
    have : a ∉ H := fun h => hdisj h ha
    simp [this]
  rw [e3, e4, List.nil_append]

/-- C10: for every bucket with `maxElements > 0` whose map holds `m` entries under distinct
keys, and for every order in which `range` yields them, the max-size phase returns.  When
`m ≤ maxElements` the bucket is unchanged.  When `m > maxElements` exactly `maxElements` entries
are left, so `m - maxElements` keys are deleted; what is left are entries of the old map, in
place; and every deleted entry has a `lastAccessed` not after that of every entry left. -/
theorem C10_cleaner_max_elements {G V E : Type} (cb : CacheBucket G V E)
    (order : List (String × CacheItem G V E))
    (hmax : 0 < cb.maxElements) (hnd : (cb.data.map Prod.fst).Nodup)
    (horder : order.Perm cb.data) :
    ∃ cb1, cb.cleanerMaxElements order = .ok cb1 ∧
      cb1.maxElements = cb.maxElements ∧ cb1.clearInterval = cb.clearInterval ∧
      cb1.expireInterval = cb.expireInterval ∧
      ((cb.data.length : Int) ≤ cb.maxElements → cb1 = cb) ∧
      (cb.maxElements < (cb.data.length : Int) →
        (cb1.data.length : Int) = cb.maxElements ∧
        (cb.data.length : Int) - (cb1.data.length : Int)
          = (cb.data.length : Int) - cb.maxElements ∧
        cb1.data.Sublist cb.data ∧
        ∀ d ∈ cb.data, d.1 ∉ cb1.data.map Prod.fst →
          ∀ s ∈ cb1.data, d.2.lastAccessed ≤ s.2.lastAccessed) := by
  by_cases hle : (cb.data.length : Int) ≤ cb.maxElements
  · refine ⟨cb, ?_, rfl, rfl, rfl, fun _ => rfl, fun h => by omega⟩
    have : ¬ ((cb.data.length : Int) - cb.maxElements > 0) := by omega
    simp [CacheBucket.cleanerMaxElements, hmax, this]
  · have hex : (cb.data.length : Int) - cb.maxElements > 0 := by omega
    obtain ⟨heap, hrun, -, -, hlen, disc, hperm, hord⟩ :=
      AddAll_spec ((cb.data.length : Int) - cb.maxElements) (by omega)
        (order.map toExpiredKey) [] (NewHeap ((cb.data.length : Int) - cb.maxElements))
        (Selected_NewHeap _ (by omega))
    simp only [List.nil_append, List.length_map] at hlen hperm
    have holen : order.length = cb.data.length := horder.length_eq
    have hperm2 : (heap.Heap ++ disc).Perm (cb.data.map toExpiredKey) :=
      hperm.trans (horder.map _)
    have hplen : heap.Heap.length + disc.length = cb.data.length := by
      have := hperm2.length_eq
      simpa using this
    have hHlen : (heap.Heap.length : Int) = (cb.data.length : Int) - cb.maxElements := by
      rw [hlen, holen]
      omega
    obtain ⟨hmem, hdisc, hcount⟩ := sweep_split cb.data hnd heap.Heap disc hperm2
    have hkeys : (heap.Heap.map ExpiredKey.Key).length > 0 := by
      simp only [List.length_map]
      omega
    have hdata : (cb.clearItems (heap.Heap.map ExpiredKey.Key)).data
        = cb.data.filter (fun p => decide (p.1 ∉ heap.Heap.map ExpiredKey.Key)) :=
      foldl_mapDelete _ _
    refine ⟨cb.clearItems (heap.Heap.map ExpiredKey.Key), ?_, rfl, rfl, rfl,
      fun h => absurd h hle, fun _ => ?_⟩
    · simp only [CacheBucket.cleanerMaxElements, hmax, hex, if_true, hrun, hkeys]
    · have hl : ((cb.clearItems (heap.Heap.map ExpiredKey.Key)).data.length : Int)
          = cb.maxElements := by
        rw [hdata, hcount]
        omega
      refine ⟨hl, by rw [hl], ?_, ?_⟩
      · rw [hdata]
        exact List.filter_sublist _
      · intro d hd hdk s hs
        rw [hdata] at hs hdk
        obtain ⟨hs1, hs2⟩ := List.mem_filter.mp hs
        have hs3 : s.1 ∉ heap.Heap.map ExpiredKey.Key := by simpa using hs2
        have hsH : toExpiredKey s ∉ heap.Heap := fun h => hs3 ((hmem s hs1).mpr h)
        have hsd : toExpiredKey s ∈ disc := hdisc s hs1 hsH
        have hdH : toExpiredKey d ∈ heap.Heap := by
          by_contra hcon
          have hk : d.1 ∉ heap.Heap.map ExpiredKey.Key := fun h => hcon ((hmem d hd).mp h)
          apply hdk
          exact List.mem_map.mpr ⟨d, List.mem_filter.mpr ⟨hd, by simpa using hk⟩, rfl⟩
        exact hord _ hdH _ hsd

/-- The statement C10 in the scenario of the specification: `maxSize = 3`, keys `a`, `b`, `c`,
`d` accessed at `t - 30s`, `t - 20s`, `t - 10s`, `t`; the phase evicts exactly `a`. -/
theorem C10_cleaner_max_elements_witness :
    ((0 : Int) < scenarioBucket.maxElements ∧ (scenarioBucket.data.map Prod.fst).Nodup ∧
      scenarioBucket.data.reverse.Perm scenarioBucket.data) ∧
    (∃ cb1, scenarioBucket.cleanerMaxElements scenarioBucket.data.reverse = .ok cb1 ∧
      cb1.maxElements = scenarioBucket.maxElements ∧
      cb1.clearInterval = scenarioBucket.clearInterval ∧
      cb1.expireInterval = scenarioBucket.expireInterval ∧
      ((scenarioBucket.data.length : Int) ≤ scenarioBucket.maxElements →
        cb1 = scenarioBucket) ∧
      (scenarioBucket.maxElements < (scenarioBucket.data.length : Int) →
        (cb1.data.length : Int) = scenarioBucket.maxElements ∧
        (scenarioBucket.data.length : Int) - (cb1.data.length : Int)
          = (scenarioBucket.data.length : Int) - scenarioBucket.maxElements ∧
        cb1.data.Sublist scenarioBucket.data ∧
        ∀ d ∈ scenarioBucket.data, d.1 ∉ cb1.data.map Prod.fst →
          ∀ s ∈ cb1.data, d.2.lastAccessed ≤ s.2.lastAccessed)) ∧
    (scenarioBucket.cleanerMaxElements scenarioBucket.data.reverse).toOption.map
        (fun cb => cb.data.map Prod.fst) = some ["b", "c", "d"] ∧
    (scenarioBucket.cleanerMaxElements scenarioBucket.data).toOption.map
        (fun cb => cb.data.map Prod.fst) = some ["b", "c", "d"] :=
  ⟨⟨by decide, by decide, List.reverse_perm _⟩,
   C10_cleaner_max_elements scenarioBucket scenarioBucket.data.reverse (by decide) (by decide)
     (List.reverse_perm _),
   by decide, by decide⟩

/-- C11: for every bucket whose map holds its entries under distinct keys, and for every order
in which `range` yields them, the idle phase run at time `now` with `clearInterval = d` leaves
exactly the entries with `¬ (lastAccessed + d < now)`, each key still mapped to its cell and
in place: the keys deleted are exactly those whose cell has `lastAccessed + d < now`.  With
`clearInterval` not configured the phase leaves the bucket as it is. -/
theorem C11_cleaner_idle {G V E : Type} (cb : CacheBucket G V E)
    (order : List (String × CacheItem G V E)) (now : Int)
    (hnd : (cb.data.map Prod.fst).Nodup) (horder : order.Perm cb.data) :
    (cb.clearInterval = none → cb.cleanerIdle order now = cb) ∧
    (∀ d : Int, cb.clearInterval = some d →
      (cb.cleanerIdle order now).data
        = cb.data.filter (fun p => decide (¬ (p.2.lastAccessed + d < now))) ∧
      (∀ p ∈ cb.data, (p.1 ∉ (cb.cleanerIdle order now).data.map Prod.fst ↔
        p.2.lastAccessed + d < now)) ∧
      (∀ p ∈ cb.data, ¬ (p.2.lastAccessed + d < now) → p ∈ (cb.cleanerIdle order now).data) ∧
      (cb.cleanerIdle order now).maxElements = cb.maxElements ∧
      (cb.cleanerIdle order now).clearInterval = cb.clearInterval ∧
      (cb.cleanerIdle order now).expireInterval = cb.expireInterval) := by
  constructor
  · intro h
    simp [CacheBucket.cleanerIdle, h]
  · intro d h
    have hdata : (cb.cleanerIdle order now).data
        = cb.data.filter (fun p => decide (¬ (p.2.lastAccessed + d < now))) := by
      simp only [CacheBucket.cleanerIdle, h, CacheBucket.clearItems, foldl_mapDelete]
      apply List.filter_congr
      intro p hp
      have hiff : p.1 ∈ (order.filter
            (fun q => decide (now > q.2.LastAccessed + d))).map Prod.fst
          ↔ p.2.lastAccessed + d < now := by
        constructor
        · intro hk
          obtain ⟨q, hq, hfst⟩ := List.mem_map.mp hk
          obtain ⟨hq1, hq2⟩ := List.mem_filter.mp hq
          have hqd : q ∈ cb.data := horder.subset hq1
          have : q = p := eq_of_fst_eq_of_nodup cb.data hnd q p hqd hp hfst
          subst this
          simpa [CacheItem.LastAccessed] using hq2
        · intro hlt
          refine List.mem_map.mpr ⟨p, List.mem_filter.mpr ⟨horder.symm.subset hp, ?_⟩, rfl⟩
          simpa [CacheItem.LastAccessed] using hlt
      by_cases hlt : p.2.lastAccessed + d < now
      · simp [hiff.mpr hlt, hlt]
      · have : ¬ p.1 ∈ (order.filter
            (fun q => decide (now > q.2.LastAccessed + d))).map Prod.fst :=
          fun hk => hlt (hiff.mp hk)
        simp [this, hlt]
    refine ⟨hdata, ?_, ?_, ?_, ?_, ?_⟩
    · intro p hp
      rw [hdata]
      constructor
      · intro hn
        by_contra hlt
        exact hn (List.mem_map.mpr ⟨p, List.mem_filter.mpr ⟨hp, by simpa using hlt⟩, rfl⟩)
      · intro hlt hk
        obtain ⟨q, hq, hfst⟩ := List.mem_map.mp hk
        obtain ⟨hq1, hq2⟩ := List.mem_filter.mp hq
        have : q = p := eq_of_fst_eq_of_nodup cb.data hnd q p hq1 hp hfst
        subst this
        have : ¬ (q.2.lastAccessed + d < now) := by simpa using hq2
        exact this hlt
    · intro p hp hn
      rw [hdata]
      exact List.mem_filter.mpr ⟨hp, by simpa using hn⟩
    · simp [CacheBucket.cleanerIdle, h, CacheBucket.clearItems]
    · simp [CacheBucket.cleanerIdle, h, CacheBucket.clearItems]
    · simp [CacheBucket.cleanerIdle, h, CacheBucket.clearItems]

/-- The statement C11 at `idleBucket` (keys `a`, `b`, `c`, `d` accessed at 70, 80, 90, 100 and
an idle timeout of 15) at the time 105: `a` and `b` go, and `c`, for which
`90 + 15 < 105` fails, stays. -/
theorem C11_cleaner_idle_witness :
    ((idleBucket.data.map Prod.fst).Nodup ∧ idleBucket.data.reverse.Perm idleBucket.data) ∧
    idleBucket.clearInterval = some 15 ∧
    (idleBucket.cleanerIdle idleBucket.data.reverse 105).data
      = idleBucket.data.filter (fun p => decide (¬ (p.2.lastAccessed + 15 < 105))) ∧
    (idleBucket.cleanerIdle idleBucket.data.reverse 105).data.map Prod.fst = ["c", "d"] :=
  ⟨⟨by decide, List.reverse_perm _⟩, rfl,
   ((C11_cleaner_idle idleBucket idleBucket.data.reverse 105 (by decide)
      (List.reverse_perm _)).2 15 rfl).1,
   by decide⟩

theorem find_map_store {G V E : Type} (key k : String) (c : CacheItem G V E) :
    ∀ data : List (String × CacheItem G V E),
      ((data.map (fun p => if p.1 == key then (key, c) else p)).find?
          (fun p => p.1 == k)).map Prod.snd
        = if k = key then (if data.any (fun p => p.1 == key) then some c else none)
          else (data.find? (fun p => p.1 == k)).map Prod.snd := by
  intro data
  induction data with
  | nil => simp
  | cons a t ih =>
    simp only [List.map_cons, List.find?_cons, List.any_cons]
    by_cases ha : a.1 = key
    · by_cases hk : k = key
      · simp [ha, hk]
      · have h1 : (key == k) = false := by simpa using fun h => hk h.symm
        have h2 : (a.1 == k) = false := by simpa using fun h => hk (h.symm.trans ha)
        have h3 : (a.1 == key) = true := by simpa using ha
        simp only [h3, if_true, h1, h2]
        rw [ih]
        simp [hk]
    · have h3 : (a.1 == key) = false := by simpa using ha
      simp only [h3, Bool.false_eq_true, if_false, Bool.false_or]
      by_cases hk : k = key
      · have h2 : (a.1 == k) = false := by simpa [hk] using ha
        simp only [h2]
        rw [ih]
      · by_cases hak : a.1 = k
        · have h2 : (a.1 == k) = true := by simpa using hak
          simp [h2, hk]
        · have h2 : (a.1 == k) = false := by simpa using hak
          simp only [h2]
          rw [ih]

theorem find_append_store {G V E : Type} (key k : String) (c : CacheItem G V E)
    (data : List (String × CacheItem G V E)) (hany : data.any (fun p => p.1 == key) = false) :
    ((data ++ [(key, c)]).find? (fun p => p.1 == k)).map Prod.snd
      = if k = key then some c else (data.find? (fun p => p.1 == k)).map Prod.snd := by
  rw [List.find?_append]
  by_cases hk : k = key
  · subst hk
    have hnone : data.find? (fun p => p.1 == k) = none := by
      rw [List.find?_eq_none]
      intro p hp
      have := List.any_eq_false.mp hany p hp
      simpa using this
    simp [hnone]
  · have h1 : (key == k) = false := by simpa using fun h => hk h.symm
    cases hf : data.find? (fun p => p.1 == k) with
    | none => simp [h1, hk]
    | some x => simp [hk]

theorem lookup_mapStore {G V E : Type} (cb : CacheBucket G V E) (key k : String)
    (c : CacheItem G V E) :
    CacheBucket.lookup { cb with data := mapStore cb.data key c } k
      = if k = key then some c else cb.lookup k := by
  unfold CacheBucket.lookup mapStore
  by_cases hany : cb.data.any (fun p => p.1 == key) = true
  · simp only [hany, if_true]
    rw [find_map_store]
    simp [hany]
  · have hany2 : cb.data.any (fun p => p.1 == key) = false := Bool.eq_false_iff.mpr hany
    simp only [hany2, Bool.false_eq_true, if_false]
    exact find_append_store key k c cb.data hany2

theorem lookup_isSome_iff_any {G V E : Type} (cb : CacheBucket G V E) (key : String) :
    (cb.lookup key).isSome = cb.data.any (fun p => p.1 == key) := by
  unfold CacheBucket.lookup
  cases hf : cb.data.find? (fun p => p.1 == key) with
  | none =>
    have := List.find?_eq_none.mp hf
    have hany : cb.data.any (fun p => p.1 == key) = false := by
      rw [List.any_eq_false]
      exact this
    simp [hany]
  | some x =>
    have hx := List.find?_some hf
    have hm := List.mem_of_find?_eq_some hf
    have hany : cb.data.any (fun p => p.1 == key) = true := List.any_eq_true.mpr ⟨x, hm, hx⟩
    rw [hany]
    rfl

theorem keys_mapStore {G V E : Type} (cb : CacheBucket G V E) (key : String)
    (c : CacheItem G V E) :
    (mapStore cb.data key c).map Prod.fst
      = if (cb.lookup key).isSome then cb.data.map Prod.fst
        else cb.data.map Prod.fst ++ [key] := by
  rw [lookup_isSome_iff_any]
  unfold mapStore
  by_cases hany : cb.data.any (fun p => p.1 == key) = true
  · simp only [hany, if_true, List.map_map]
    apply List.map_congr_left
    intro p _
    by_cases hp : p.1 = key
    · simp [hp]
    · simp [hp]
  · have hany2 : cb.data.any (fun p => p.1 == key) = false := Bool.eq_false_iff.mpr hany
    simp only [hany2, Bool.false_eq_true, if_false, List.map_append, List.map_cons,
      List.map_nil]

theorem Get_keeps_getter {G V E : Type} (ci : CacheItem G V E) (ctx : Context) (now : Int)
    (g : G) : (ci.Get ctx now g).ci.getter = ci.getter ∧ (ci.Get ctx now g).ci.ttl = ci.ttl := by
  unfold CacheItem.Get
  cases ci.dataPrevious with
  | some p => exact ⟨rfl, rfl⟩
  | none =>
    simp only
    cases ci.dataActual with
    | some v =>
      simp only
      unfold CacheItem.GetTail
      split <;> exact ⟨rfl, rfl⟩
    | none =>
      simp only
      cases (ci.getter ctx g).1.err with
      | some e => exact ⟨rfl, rfl⟩
      | none =>
        simp only
        unfold CacheItem.GetTail
        split <;> exact ⟨rfl, rfl⟩

theorem bucket_Get_absent {G V E : Type} (cb : CacheBucket G V E) (ctx : Context)
    (key : String) (getter : LiveGetter G V E) (built now : Int) (g : G)
    (h : cb.lookup key = none) :
    (cb.Get ctx key getter built now g).created = true ∧
    (cb.Get ctx key getter built now g).value
      = ((NewCacheItem getter cb.expireInterval built).Get ctx now g).value ∧
    (cb.Get ctx key getter built now g).err
      = ((NewCacheItem getter cb.expireInterval built).Get ctx now g).err ∧
    (cb.Get ctx key getter built now g).world
      = ((NewCacheItem getter cb.expireInterval built).Get ctx now g).world ∧
    (cb.Get ctx key getter built now g).getterCalls
      = ((NewCacheItem getter cb.expireInterval built).Get ctx now g).getterCalls ∧
    (cb.Get ctx key getter built now g).launched
      = ((NewCacheItem getter cb.expireInterval built).Get ctx now g).launched ∧
    (cb.Get ctx key getter built now g).cb
      = CacheBucket.mk cb.expireInterval cb.clearInterval cb.maxElements
          (mapStore (mapStore cb.data key (NewCacheItem getter cb.expireInterval built)) key
            ((NewCacheItem getter cb.expireInterval built).Get ctx now g).ci) := by
  simp [CacheBucket.Get, h]

theorem bucket_Get_present {G V E : Type} (cb : CacheBucket G V E) (ctx : Context)
    (key : String) (getter : LiveGetter G V E) (built now : Int) (g : G)
    (cacher : CacheItem G V E) (h : cb.lookup key = some cacher) :
    cb.Get ctx key getter built now g =
      { value := (cacher.Get ctx now g).value, err := (cacher.Get ctx now g).err,
        cb := { cb with data := mapStore cb.data key (cacher.Get ctx now g).ci },
        world := (cacher.Get ctx now g).world,
        getterCalls := (cacher.Get ctx now g).getterCalls,
        launched := (cacher.Get ctx now g).launched, created := false } := by
  simp [CacheBucket.Get, h]

/-- C12: `CacheBucket.Get` is get-or-create.  When `key` is absent, a cell built by
`NewCacheItem` from the given producer and the bucket's `expireInterval` is stored under `key`
and the call is that cell's `Get`; afterwards `key` is mapped to that cell (also when the
producer failed), the cell still has the given producer and ttl, every other key is mapped as
before, and `key` is the one new key.  When `key` is mapped to a cell, the call is that cell's
`Get`; afterwards `key` is mapped to the same cell with its producer unchanged, every other key
is mapped as before, the keys are the same, and the call does the same whatever producer is
supplied. -/
theorem C12_bucket_get_or_create {G V E : Type} (cb : CacheBucket G V E) (ctx : Context)
    (key : String) (getter : LiveGetter G V E) (built now : Int) (g : G) :
    (cb.lookup key = none →
      (cb.Get ctx key getter built now g).created = true ∧
      (cb.Get ctx key getter built now g).value
        = ((NewCacheItem getter cb.expireInterval built).Get ctx now g).value ∧
      (cb.Get ctx key getter built now g).err
        = ((NewCacheItem getter cb.expireInterval built).Get ctx now g).err ∧
      (cb.Get ctx key getter built now g).world
        = ((NewCacheItem getter cb.expireInterval built).Get ctx now g).world ∧
      (cb.Get ctx key getter built now g).getterCalls
        = ((NewCacheItem getter cb.expireInterval built).Get ctx now g).getterCalls ∧
      (cb.Get ctx key getter built now g).cb.lookup key
        = some ((NewCacheItem getter cb.expireInterval built).Get ctx now g).ci ∧
      ((NewCacheItem getter cb.expireInterval built).Get ctx now g).ci.getter = getter ∧
      ((NewCacheItem getter cb.expireInterval built).Get ctx now g).ci.ttl
        = cb.expireInterval ∧
      (∀ k, k ≠ key → (cb.Get ctx key getter built now g).cb.lookup k = cb.lookup k) ∧
      (cb.Get ctx key getter built now g).cb.data.map Prod.fst
        = cb.data.map Prod.fst ++ [key]) ∧
    (∀ cacher, cb.lookup key = some cacher →
      (cb.Get ctx key getter built now g).created = false ∧
      (cb.Get ctx key getter built now g).value = (cacher.Get ctx now g).value ∧
      (cb.Get ctx key getter built now g).err = (cacher.Get ctx now g).err ∧
      (cb.Get ctx key getter built now g).world = (cacher.Get ctx now g).world ∧
      (cb.Get ctx key getter built now g).getterCalls = (cacher.Get ctx now g).getterCalls ∧
      (cb.Get ctx key getter built now g).cb.lookup key = some (cacher.Get ctx now g).ci ∧
      (cacher.Get ctx now g).ci.getter = cacher.getter ∧
      (∀ k, k ≠ key → (cb.Get ctx key getter built now g).cb.lookup k = cb.lookup k) ∧
      (cb.Get ctx key getter built now g).cb.data.map Prod.fst = cb.data.map Prod.fst ∧
      (∀ getter2 : LiveGetter G V E,
        cb.Get ctx key getter2 built now g = cb.Get ctx key getter built now g)) := by
  constructor
  · intro h
    obtain ⟨a1, a2, a3, a4, a5, -, a7⟩ := bucket_Get_absent cb ctx key getter built now g h
    have hk := Get_keeps_getter (NewCacheItem getter cb.expireInterval built) ctx now g
    have hl1 : CacheBucket.lookup
        { cb with data := mapStore cb.data key (NewCacheItem getter cb.expireInterval built) }
        key = some (NewCacheItem getter cb.expireInterval built) := by
      rw [lookup_mapStore]; simp
    have h1 := lookup_mapStore
      { cb with data := mapStore cb.data key (NewCacheItem getter cb.expireInterval built) }
      key
    have h2 := lookup_mapStore cb key
    have k1 := keys_mapStore
      { cb with data := mapStore cb.data key (NewCacheItem getter cb.expireInterval built) }
      key ((NewCacheItem getter cb.expireInterval built).Get ctx now g).ci
    have k2 := keys_mapStore cb key (NewCacheItem getter cb.expireInterval built)
    refine ⟨a1, a2, a3, a4, a5, ?_, hk.1, hk.2, ?_, ?_⟩
    · rw [a7]
      have := h1 key ((NewCacheItem getter cb.expireInterval built).Get ctx now g).ci
      simpa using this
    · intro k hk2
      rw [a7]
      have e1 := h1 k ((NewCacheItem getter cb.expireInterval built).Get ctx now g).ci
      have e2 := h2 k (NewCacheItem getter cb.expireInterval built)
      rw [if_neg hk2] at e1 e2
      exact e1.trans e2
    · rw [a7]
      rw [hl1] at k1
      rw [h] at k2
      simp only [Option.isSome_some, if_true] at k1
      simp only [Option.isSome_none, Bool.false_eq_true, if_false] at k2
      exact k1.trans k2
  · intro cacher h
    rw [bucket_Get_present cb ctx key getter built now g cacher h]
    refine ⟨rfl, rfl, rfl, rfl, rfl, ?_, (Get_keeps_getter cacher ctx now g).1, ?_, ?_, ?_⟩
    · have := lookup_mapStore cb key key (cacher.Get ctx now g).ci
      simpa using this
    · intro k hk2
      have h1 := lookup_mapStore cb key k (cacher.Get ctx now g).ci
      rw [if_neg hk2] at h1
      exact h1
    · have h1 := keys_mapStore cb key (cacher.Get ctx now g).ci
      rw [h] at h1
      simpa using h1
    · intro getter2
      rw [bucket_Get_present cb ctx key getter2 built now g cacher h]

/-- The statement C12 in the test `TestCacheBucket` and after it: in a new bucket a first
`Get` of `"k"` with a producer of `"A"` creates the cell and returns `"A"`; a second `Get` of
`"k"` with a producer of `"B"` creates nothing, calls no producer and returns `"A"`; and a
first `Get` whose producer fails leaves the key present. -/
theorem C12_bucket_get_or_create_witness :
    ((testBucket.Get (Context.caller 0) "k" (constGetter "A") 0 0 ()).created = true ∧
      (testBucket.Get (Context.caller 0) "k" (constGetter "A") 0 0 ()).value = some "A" ∧
      (testBucket.Get (Context.caller 0) "k" (constGetter "A") 0 0 ()).cb.data.map Prod.fst
        = testBucket.data.map Prod.fst ++ ["k"]) ∧
    ((testBucket.Get (Context.caller 0) "k" (constGetter "A") 0 0 ()).cb.Get
        (Context.caller 0) "k" (constGetter "B") 5 5 ()).created = false ∧
    ((testBucket.Get (Context.caller 0) "k" (constGetter "A") 0 0 ()).cb.Get
        (Context.caller 0) "k" (constGetter "B") 5 5 ()).value = some "A" ∧
    ((testBucket.Get (Context.caller 0) "k" (constGetter "A") 0 0 ()).cb.Get
        (Context.caller 0) "k" (constGetter "B") 5 5 ()).getterCalls = 0 ∧
    ((testBucket.Get (Context.caller 0) "k" (fun _ g => (⟨none, some "boom"⟩, g)) 0 0 ()).err
        = some "boom" ∧
      (testBucket.Get (Context.caller 0) "k" (fun _ g => (⟨none, some "boom"⟩, g)) 0 0
        ()).cb.data.map Prod.fst = ["k"]) :=
  have h := (C12_bucket_get_or_create testBucket (Context.caller 0) "k" (constGetter "A")
    0 0 ()).1 rfl
  ⟨⟨h.1, by decide, h.2.2.2.2.2.2.2.2.2⟩, by decide, by decide, by decide, by decide, by decide⟩

/-- C15: for a key that is not in the map, `IsValid` returns false, `InRefresh` returns false
and `Invalidate` launches nothing; for a key mapped to a cell each returns what the cell's
`IsValid`, `InRefresh`, `Invalidate` does.  In both cases the bucket afterwards is the bucket
before: no entry is created and no key is remapped. -/
theorem C15_bucket_pass_through {G V E : Type} (cb : CacheBucket G V E) (key : String)
    (now : Int) :
    (cb.lookup key = none →
      (cb.IsValid key now).1 = false ∧ (cb.InRefresh key).1 = false ∧
      (cb.Invalidate key).1 = 0) ∧
    (∀ cacher, cb.lookup key = some cacher →
      (cb.IsValid key now).1 = cacher.IsValid now ∧ (cb.InRefresh key).1 = cacher.InRefresh ∧
      (cb.Invalidate key).1 = cacher.Invalidate) ∧
    (cb.IsValid key now).2 = cb ∧ (cb.InRefresh key).2 = cb ∧ (cb.Invalidate key).2 = cb := by
  refine ⟨?_, ?_, ?_, ?_, ?_⟩
  · intro h
    simp [CacheBucket.IsValid, CacheBucket.InRefresh, CacheBucket.Invalidate, h]
  · intro cacher h
    simp [CacheBucket.IsValid, CacheBucket.InRefresh, CacheBucket.Invalidate, h]
  · unfold CacheBucket.IsValid
    cases cb.lookup key <;> rfl
  · unfold CacheBucket.InRefresh
    cases cb.lookup key <;> rfl
  · unfold CacheBucket.Invalidate
    cases cb.lookup key <;> rfl

/-- The statement C15 at `scenarioBucket`: the unknown key `"z"`, and the key `"a"`, whose cell
has `nextRefresh = 0` and no refresh in flight. -/
theorem C15_bucket_pass_through_witness :
    (scenarioBucket.lookup "z" = none ∧
      (scenarioBucket.IsValid "z" 50).1 = false ∧ (scenarioBucket.InRefresh "z").1 = false ∧
      (scenarioBucket.Invalidate "z").1 = 0) ∧
    ((scenarioBucket.lookup "a").map (fun c => c.lastAccessed) = some 70 ∧
      (scenarioBucket.IsValid "a" (-5)).1 = true ∧ (scenarioBucket.IsValid "a" 0).1 = false ∧
      (scenarioBucket.InRefresh "a").1 = false ∧ (scenarioBucket.Invalidate "a").1 = 1) ∧
    (scenarioBucket.Invalidate "z").2 = scenarioBucket :=
  have h := C15_bucket_pass_through scenarioBucket "z" 50
  ⟨⟨rfl, h.1 rfl⟩, ⟨by decide, by decide, by decide, by decide, by decide⟩, h.2.2.2.2⟩

theorem step_without_load {G V E : Type} (s s1 : Sys G V E) (ev : Event)
    (hno : ¬ IsLoad s ev) (hstep : s.step ev = some s1) :
    s1.ci.nextRefresh = s.ci.nextRefresh ∧ s1.ci.ttl = s.ci.ttl := by
  cases ev with
  | get ctx now =>
    simp only [Sys.step, Option.some.injEq] at hstep
    subst hstep
    simp only [IsLoad, not_and] at hno
    cases hst : s.ci.dataPrevious with
    | some p =>
      rw [Get_of_stale s.ci p ctx now s.world hst]
      exact ⟨rfl, rfl⟩
    | none =>
      cases hcur : s.ci.dataActual with
      | some v =>
        simp only [Get_of_warm s.ci v ctx now s.world hcur hst]
        unfold CacheItem.GetTail
        split <;> exact ⟨rfl, rfl⟩
      | none =>
        cases herr : (s.ci.getter ctx s.world).1.err with
        | none => exact absurd herr (hno hst hcur)
        | some e =>
          rw [Get_of_cold_failure s.ci ctx now s.world e hcur hst herr]
          exact ⟨rfl, rfl⟩
  | refreshDone now =>
    by_cases hp : s.pending = 0
    · simp [Sys.step, hp] at hstep
    · simp only [Sys.step, hp, if_false, Option.some.injEq] at hstep
      subst hstep
      simp only [IsLoad, not_and] at hno
      cases herr : (s.ci.getter (Context.backgroundWithTimeout s.ci.ttl) s.world).1.err with
      | none => exact absurd herr (hno (by omega))
      | some e =>
        rw [refresh_of_failure s.ci now s.world e herr]
        exact ⟨rfl, rfl⟩
  | invalidate =>
    simp only [Sys.step, Option.some.injEq] at hstep
    subst hstep
    exact ⟨rfl, rfl⟩

theorem run_without_load {G V E : Type} (evs : List Event) :
    ∀ s s1 : Sys G V E, NoLoad s evs → s.run evs = some s1 →
      s1.ci.nextRefresh = s.ci.nextRefresh ∧ s1.ci.ttl = s.ci.ttl := by
  induction evs with
  | nil =>
    intro s s1 _ hrun
    simp only [Sys.run, Option.some.injEq] at hrun
    subst hrun
    exact ⟨rfl, rfl⟩
  | cons ev rest ih =>
    intro s s1 hno hrun
    obtain ⟨h1, h2⟩ := hno
    cases hs : s.step ev with
    | none => simp [hs] at h2
    | some s2 =>
      simp only [hs] at h2
      simp only [Sys.run, hs] at hrun
      obtain ⟨k1, k2⟩ := step_without_load s s2 ev h1 hs
      obtain ⟨k3, k4⟩ := ih s2 s1 h2 hrun
      exact ⟨k3.trans k1, k4.trans k2⟩

theorem loaded_nextRefresh {G V E : Type} (ci ld : CacheItem G V E) (t0 : Int)
    (hload :
      (∃ (ctx : Context) (g : G), ci.dataActual = none ∧ ci.dataPrevious = none ∧
        (ci.getter ctx g).1.err = none ∧ ld = (ci.Get ctx t0 g).ci) ∨
      (∃ g : G, (ci.getter (Context.backgroundWithTimeout ci.ttl) g).1.err = none ∧
        ld = (ci.refresh t0 g).1)) :
    ld.nextRefresh = t0 + ci.ttl ∧ ld.ttl = ci.ttl := by
  rcases hload with ⟨ctx, g, hcur, hst, herr, rfl⟩ | ⟨g, herr, rfl⟩
  · have hG : ci.Get ctx t0 g =
        CacheItem.GetTail
          (CacheItem.update { ci with lastAccessed := t0 } (ci.getter ctx g).1.data t0)
          t0 (ci.getter ctx g).2 1 := by
      simp [CacheItem.Get, hst, hcur, herr]
    rw [hG]
    unfold CacheItem.GetTail
    split <;> exact ⟨rfl, rfl⟩
  · rw [refresh_of_no_error ci t0 g herr]
    exact ⟨rfl, rfl⟩

/-- `IsValid` at time `t` is `t < nextRefresh`.  Let a load set the timestamps with the instant
`t0` on a cell with positive `ttl`: `t0` is the clock reading of the first `Get` of a cell
without value (taken before the lock and the producer call), or the clock reading a `refresh`
takes after its producer has returned.  After any further steps none of which completes a
load, `IsValid` at `t` is true exactly when `t < t0 + ttl`. -/
theorem IsValid_after_load {G V E : Type} (ci ld : CacheItem G V E) (t0 t : Int) (w : G)
    (n : Nat) (evs : List Event) (s : Sys G V E)
    (httl : 0 < ci.ttl)
    (hload :
      (∃ (ctx : Context) (g : G), ci.dataActual = none ∧ ci.dataPrevious = none ∧
        (ci.getter ctx g).1.err = none ∧ ld = (ci.Get ctx t0 g).ci) ∨
      (∃ g : G, (ci.getter (Context.backgroundWithTimeout ci.ttl) g).1.err = none ∧
        ld = (ci.refresh t0 g).1))
    (hno : NoLoad { ci := ld, world := w, pending := n } evs)
    (hrun : Sys.run { ci := ld, world := w, pending := n } evs = some s) :
    s.ci.IsValid t = decide (t < s.ci.nextRefresh) ∧
    s.ci.nextRefresh = t0 + ci.ttl ∧
    (s.ci.IsValid t = true ↔ t < t0 + ci.ttl) ∧
    s.ci.IsValid t0 = true ∧
    (t0 + ci.ttl ≤ t → s.ci.IsValid t = false) := by
  obtain ⟨h1, -⟩ := loaded_nextRefresh ci ld t0 hload
  obtain ⟨h2, -⟩ := run_without_load evs _ s hno hrun
  have hnr : s.ci.nextRefresh = t0 + ci.ttl := h2.trans h1
  refine ⟨rfl, hnr, ?_, ?_, ?_⟩
  · simp [CacheItem.IsValid, hnr]
  · simp only [CacheItem.IsValid, hnr, decide_eq_true_eq]
    omega
  · intro hle
    simp only [CacheItem.IsValid, hnr, decide_eq_false_iff_not]
    omega

theorem first_load_valid_from_entry {G V E : Type} (ci : CacheItem G V E) (ctx : Context)
    (entered returned : Int) (g : G)
    (hcur : ci.dataActual = none) (hst : ci.dataPrevious = none)
    (herr : (ci.getter ctx g).1.err = none) (hslow : ci.ttl ≤ returned - entered) :
    (ci.GetDuring ctx entered returned g).result.ci.nextRefresh = entered + ci.ttl ∧
    (ci.GetDuring ctx entered returned g).result.ci.lastUpdated = entered ∧
    (ci.GetDuring ctx entered returned g).result.ci.IsValid returned = false := by
  have hG : ci.Get ctx entered g =
      CacheItem.GetTail
        (CacheItem.update { ci with lastAccessed := entered } (ci.getter ctx g).1.data entered)
        entered (ci.getter ctx g).2 1 := by
    simp [CacheItem.Get, hst, hcur, herr]
  have h : (ci.Get ctx entered g).ci.nextRefresh = entered + ci.ttl ∧
      (ci.Get ctx entered g).ci.lastUpdated = entered := by
    rw [hG]
    unfold CacheItem.GetTail
    split <;> exact ⟨rfl, rfl⟩
  refine ⟨h.1, h.2, ?_⟩
  simp only [CacheItem.GetDuring, CacheItem.IsValid, h.1, decide_eq_false_iff_not]
  omega

/-- C13 (the code at the failing input): a cell with `ttl = 3` whose first `Get` reads the clock
at 10 and whose producer returns `"A"` at 15.  The load succeeds, but `update` is given the
reading 10: `lastUpdated = 10` and `nextRefresh = 13`, so `IsValid` is false at 15, the instant
the load completes, which C13 states to be valid until 18.  A `refresh` of the same cell that
completes at 15 reads the clock after its producer has returned and leaves `nextRefresh = 18`
and `IsValid` true at 15 and at 17. -/
theorem C13_first_load_counts_ttl_from_entry :
    (0 : Int) < slowLoadCell.ttl ∧ (10 : Int) ≤ 15 ∧
    (slowLoadCell.GetDuring (Context.caller 0) 10 15 ()).result.value = some "A" ∧
    (slowLoadCell.GetDuring (Context.caller 0) 10 15 ()).result.err = none ∧
    (slowLoadCell.GetDuring (Context.caller 0) 10 15 ()).result.getterCalls = 1 ∧
    (slowLoadCell.GetDuring (Context.caller 0) 10 15 ()).returned = 15 ∧
    (slowLoadCell.GetDuring (Context.caller 0) 10 15 ()).result.ci.lastUpdated = 10 ∧
    (slowLoadCell.GetDuring (Context.caller 0) 10 15 ()).result.ci.nextRefresh = 13 ∧
    (slowLoadCell.GetDuring (Context.caller 0) 10 15 ()).result.ci.IsValid 15 = false ∧
    ¬ ((slowLoadCell.GetDuring (Context.caller 0) 10 15 ()).result.ci.IsValid 15 = true ↔
        (15 : Int) < 15 + slowLoadCell.ttl) ∧
    (slowLoadCell.refresh 15 ()).1.nextRefresh = 18 ∧
    (slowLoadCell.refresh 15 ()).1.IsValid 15 = true ∧
    (slowLoadCell.refresh 15 ()).1.IsValid 17 = true ∧
    (slowLoadCell.refresh 15 ()).1.IsValid 18 = false := by
  decide

/-- C14: `Invalidate` on a cell whose snapshot is present launches nothing and changes nothing.
On a cell whose snapshot is absent it launches one refresh and changes no field, so the
snapshot stays absent and `InRefresh` stays false; hence two calls of `Invalidate` in a row
leave two more refreshes outstanding on a cell whose `InRefresh` is false. -/
theorem C14_Invalidate_launches_unmarked {G V E : Type} (s : Sys G V E) :
    (s.ci.dataPrevious.isSome = true →
      s.ci.Invalidate = 0 ∧ s.step Event.invalidate = some s) ∧
    (s.ci.dataPrevious = none →
      s.ci.Invalidate = 1 ∧
      s.step Event.invalidate = some { s with pending := s.pending + 1 } ∧
      s.ci.InRefresh = false ∧
      s.run [Event.invalidate, Event.invalidate]
        = some { ci := s.ci, world := s.world, pending := s.pending + 2 }) := by
  constructor
  · intro h
    obtain ⟨p, hp⟩ := Option.isSome_iff_exists.mp h
    simp [Sys.step, CacheItem.Invalidate, hp]
  · intro h
    simp [Sys.run, Sys.step, CacheItem.Invalidate, CacheItem.InRefresh, h]

/-- The statement C14 at a cell just built: after two calls of `Invalidate` two refreshes are
outstanding and `InRefresh` is false; and at `failingCell`, whose snapshot is present, nothing
is launched. -/
theorem C14_Invalidate_launches_unmarked_witness :
    (Sys.fresh scripted 1000 0 []).run [Event.invalidate, Event.invalidate]
      = some { ci := NewCacheItem scripted 1000 0, world := [], pending := 2 } ∧
    (NewCacheItem scripted 1000 0).InRefresh = false ∧
    (failingCell.dataPrevious.isSome = true ∧ failingCell.Invalidate = 0) :=
  have h := C14_Invalidate_launches_unmarked (Sys.fresh scripted 1000 0 [])
  ⟨(h.2 rfl).2.2.2, (h.2 rfl).2.2.1, rfl, rfl⟩

theorem Get_eq_check_then_locked {G V E : Type} (ci : CacheItem G V E) (ctx : Context)
    (now : Int) (g : G) :
    ci.Get ctx now g =
      match ci.dataPrevious with
      | some prev =>
        { value := some prev, err := none, ci := ci, world := g, getterCalls := 0,
          launched := 0 }
      | none => ci.GetLocked ctx now g := rfl

theorem GetLocked_of_warm_fresh {G V E : Type} (ci : CacheItem G V E) (v : V) (ctx : Context)
    (now : Int) (g : G) (hcur : ci.dataActual = some v) (hst : ci.dataPrevious = none)
    (hn : ¬ now > ci.nextRefresh) :
    ci.GetLocked ctx now g =
      { value := some v, err := none, ci := { ci with lastAccessed := now }, world := g,
        getterCalls := 0, launched := 0 } := by
  have h : ci.GetLocked ctx now g = CacheItem.GetTail { ci with lastAccessed := now } now g 0 := by
    simp [CacheItem.GetLocked, hcur]
  rw [h, (GetTail_of_stale_none { ci with lastAccessed := now } now g 0 hst).2 hn]
  simp [hcur]

theorem GetLocked_of_cold_success {G V E : Type} (ci : CacheItem G V E) (v : V)
    (ctx : Context) (now : Int) (g : G) (hcur : ci.dataActual = none)
    (httl : 0 ≤ ci.ttl)
    (hd : (ci.getter ctx g).1.data = some v) (he : (ci.getter ctx g).1.err = none) :
    ci.GetLocked ctx now g =
      { value := some v, err := none,
        ci := CacheItem.update { ci with lastAccessed := now } (some v) now,
        world := (ci.getter ctx g).2, getterCalls := 1, launched := 0 } := by
  have h : ci.GetLocked ctx now g =
      CacheItem.GetTail (CacheItem.update { ci with lastAccessed := now } (some v) now)
        now (ci.getter ctx g).2 1 := by
    simp [CacheItem.GetLocked, hcur, hd, he]
  have hn : ¬ now >
      (CacheItem.update { ci with lastAccessed := now } (some v) now).nextRefresh := by
    simp only [CacheItem.update]
    omega
  rw [h, (GetTail_of_stale_none _ now (ci.getter ctx g).2 1 rfl).2 hn]
  rfl

theorem race_after_load {G V E : Type} (v : V) (lo hi : Int) (sched : List RaceStep) :
    ∀ r r1 : Race G V E, SingleFlight v hi r → InWindow lo hi sched →
      r.run sched = some r1 →
      SingleFlight v hi r1 ∧ r1.callers.length = r.callers.length := by
  induction sched with
  | nil =>
    intro r r1 hinv _ hrun
    simp only [Race.run, Option.some.injEq] at hrun
    subst hrun
    exact ⟨hinv, rfl⟩
  | cons st rest ih =>
    intro r r1 hinv hwin hrun
    obtain ⟨h1, h2, hcur, hst, hnr, hall⟩ := hinv
    cases hs : r.step st with
    | none => simp [Race.run, hs] at hrun
    | some r2 =>
      simp only [Race.run, hs] at hrun
      cases st with
      | check i =>
        simp only [InWindow] at hwin
        simp only [Race.step] at hs
        cases hc : r.callers[i]? with
        | none => simp [hc] at hs
        | some c =>
          cases c with
          | waiting => simp [hc] at hs
          | done a b => simp [hc] at hs
          | idle =>
            simp only [hc, hst, Option.some.injEq] at hs
            subst hs
            have hinv2 : SingleFlight v hi
                { r with callers := r.callers.set i Caller.waiting } := by
              refine ⟨h1, h2, hcur, hst, hnr, ?_⟩
              intro c hc2
              rcases List.mem_or_eq_of_mem_set hc2 with h | h
              · exact hall c h
              · rw [h]; exact Or.inl rfl
            obtain ⟨k1, k2⟩ := ih _ r1 hinv2 hwin hrun
            exact ⟨k1, by simpa using k2⟩
      | locked i ctx now =>
        simp only [InWindow] at hwin
        obtain ⟨-, hhi, hwin2⟩ := hwin
        simp only [Race.step] at hs
        cases hc : r.callers[i]? with
        | none => simp [hc] at hs
        | some c =>
          cases c with
          | idle => simp [hc] at hs
          | done a b => simp [hc] at hs
          | waiting =>
            simp only [hc, Option.some.injEq] at hs
            subst hs
            have hn : ¬ now > r.ci.nextRefresh := by omega
            rw [GetLocked_of_warm_fresh r.ci v ctx now r.world hcur hst hn] at hrun
            have hinv2 : SingleFlight v hi
                { ci := { r.ci with lastAccessed := now }, world := r.world,
                  callers := r.callers.set i (Caller.done (some v) none),
                  getterCalls := r.getterCalls + 0, launched := r.launched + 0 } := by
              refine ⟨h1, h2, hcur, hst, hnr, ?_⟩
              intro c hc2
              rcases List.mem_or_eq_of_mem_set hc2 with h | h
              · exact hall c h
              · rw [h]; exact Or.inr rfl
            obtain ⟨k1, k2⟩ := ih _ r1 hinv2 hwin2 hrun
            exact ⟨k1, by simpa using k2⟩

theorem race_from_cold {G V E : Type} (ci : CacheItem G V E) (g : G) (v : V) (lo hi : Int)
    (hwidth : hi ≤ lo + ci.ttl) (sched : List RaceStep) :
    ∀ r r1 : Race G V E, ColdStart ci g r → InWindow lo hi sched →
      (∀ ctx now, firstLocked sched = some (ctx, now) →
        (ci.getter ctx g).1.data = some v ∧ (ci.getter ctx g).1.err = none) →
      r.run sched = some r1 →
      (ColdStart ci g r1 ∨ SingleFlight v hi r1) ∧
      r1.callers.length = r.callers.length := by
  induction sched with
  | nil =>
    intro r r1 hinv _ _ hrun
    simp only [Race.run, Option.some.injEq] at hrun
    subst hrun
    exact ⟨Or.inl hinv, rfl⟩
  | cons st rest ih =>
    intro r r1 hinv hwin hsucc hrun
    obtain ⟨hg, httl, h0, hl, hw, hcur, hst, hall⟩ := hinv
    cases hs : r.step st with
    | none => simp [Race.run, hs] at hrun
    | some r2 =>
      simp only [Race.run, hs] at hrun
      cases st with
      | check i =>
        simp only [InWindow] at hwin
        simp only [firstLocked] at hsucc
        simp only [Race.step] at hs
        cases hc : r.callers[i]? with
        | none => simp [hc] at hs
        | some c =>
          cases c with
          | waiting => simp [hc] at hs
          | done a b => simp [hc] at hs
          | idle =>
            simp only [hc, hst, Option.some.injEq] at hs
            subst hs
            have hinv2 : ColdStart ci g
                { r with callers := r.callers.set i Caller.waiting } := by
              refine ⟨hg, httl, h0, hl, hw, hcur, hst, ?_⟩
              intro c hc2
              rcases List.mem_or_eq_of_mem_set hc2 with h | h
              · exact hall c h
              · rw [h]; rfl
            obtain ⟨k1, k2⟩ := ih _ r1 hinv2 hwin hsucc hrun
            exact ⟨k1, by simpa using k2⟩
      | locked i ctx now =>
        simp only [InWindow] at hwin
        obtain ⟨hlo, hhi, hwin2⟩ := hwin
        have hs1 := hsucc ctx now rfl
        simp only [Race.step] at hs
        cases hc : r.callers[i]? with
        | none => simp [hc] at hs
        | some c =>
          cases c with
          | idle => simp [hc] at hs
          | done a b => simp [hc] at hs
          | waiting =>
            simp only [hc, Option.some.injEq] at hs
            subst hs
            rw [← hg, ← hw] at hs1
            have httl0 : 0 ≤ r.ci.ttl := by rw [httl]; omega
            rw [GetLocked_of_cold_success r.ci v ctx now r.world hcur httl0 hs1.1 hs1.2]
              at hrun
            have hinv2 : SingleFlight v hi
                { ci := CacheItem.update { r.ci with lastAccessed := now } (some v) now,
                  world := (r.ci.getter ctx r.world).2,
                  callers := r.callers.set i (Caller.done (some v) none),
                  getterCalls := r.getterCalls + 1, launched := r.launched + 0 } := by
              refine ⟨by simp [h0], by simp [hl], rfl, rfl, ?_, ?_⟩
              · simp only [CacheItem.update]
                rw [httl]
                omega
              · intro c hc2
                rcases List.mem_or_eq_of_mem_set hc2 with h | h
                · exact Or.inl (hall c h)
                · rw [h]; exact Or.inr rfl
            obtain ⟨k1, k2⟩ := race_after_load v lo hi rest _ r1 hinv2 hwin2 hrun
            exact ⟨Or.inr k1, by simpa using k2⟩

/-- C16 (counterexample): two callers of `Get` on `flakyCell`, a cell never accessed, whose
producer fails with `"e1"` at its first call and returns `"A"` at its second.  Both pass the
check, then take the lock one after the other: the producer is called twice, and the callers
receive `(nil, "e1")` and `("A", nil)`. -/
theorem C16_counterexample_failing_first_call :
    flakyCell.dataActual = none ∧ flakyCell.dataPrevious = none ∧
    ((Race.start flakyCell [⟨none, some "e1"⟩, ⟨some "A", none⟩] 2).run
        [RaceStep.check 0, RaceStep.check 1, RaceStep.locked 0 (Context.caller 0) 1,
         RaceStep.locked 1 (Context.caller 1) 1]).map
      (fun r => (r.getterCalls, r.callers.map Caller.result))
      = some (2, [some (none, some "e1"), some (some "A", none)]) := by
  decide

theorem race_late_caller_launches :
    ((Race.start shortLivedCell [⟨some "A", none⟩, ⟨some "B", none⟩] 2).run
        [RaceStep.check 0, RaceStep.locked 0 (Context.caller 0) 0, RaceStep.check 1,
         RaceStep.locked 1 (Context.caller 1) 200]).map
      (fun r => (r.getterCalls, r.launched, r.callers.map Caller.result))
      = some (1, 1, [some (some "A", none), some (some "A", none)]) := rfl

/-- C16 (amended): take a cell without value and snapshot and `n ≥ 1` callers of `Get` whose
clock readings lie in a window `[lo, hi]` no longer than `ttl`, and let the producer, called
in the world `g` with the context of the caller that takes the lock first, return the
non-nil value `v` and no error.  After every schedule of the callers' read-locked checks and
write-locked sections: the callers have called the producer at most once and launched no
refresh, so nothing else calls it; the cell has no snapshot; every caller that has returned
got `(v, nil)`; and once all `n` have returned, the producer has been called exactly once and
all `n` got `(v, nil)`. -/
theorem C16_single_flight_on_success {G V E : Type} (ci : CacheItem G V E) (g : G) (v : V)
    (n : Nat) (lo hi : Int) (sched : List RaceStep) (r : Race G V E)
    (hn : 1 ≤ n) (hcur : ci.dataActual = none) (hst : ci.dataPrevious = none)
    (hwidth : hi ≤ lo + ci.ttl) (hclock : InWindow lo hi sched)
    (hsucc : ∀ ctx now, firstLocked sched = some (ctx, now) →
      (ci.getter ctx g).1.data = some v ∧ (ci.getter ctx g).1.err = none)
    (hrun : (Race.start ci g n).run sched = some r) :
    r.getterCalls ≤ 1 ∧ r.launched = 0 ∧ r.ci.dataPrevious = none ∧
    (∀ c ∈ r.callers, c.isDone = true → c = Caller.done (some v) none) ∧
    ((∀ c ∈ r.callers, c.isDone = true) →
      r.getterCalls = 1 ∧ r.launched = 0 ∧
      r.callers = List.replicate n (Caller.done (some v) none)) := by
  have hinit : ColdStart ci g (Race.start ci g n) := by
    refine ⟨rfl, rfl, rfl, rfl, rfl, hcur, hst, ?_⟩
    intro c hc
    simp only [Race.start, List.mem_replicate] at hc
    rw [hc.2]; rfl
  obtain ⟨hcase, hlen⟩ := race_from_cold ci g v lo hi hwidth sched _ r hinit hclock hsucc hrun
  have hlen2 : r.callers.length = n := by simpa [Race.start] using hlen
  rcases hcase with ⟨-, -, h0, hl, -, -, hs, hall⟩ | ⟨h1, hl, -, hs, -, hall⟩
  · refine ⟨by omega, hl, hs, ?_, ?_⟩
    · intro c hc hd
      rw [hall c hc] at hd
      exact absurd hd (by simp)
    · intro hdone
      have hpos : 0 < r.callers.length := by omega
      have hm : r.callers[0] ∈ r.callers := List.getElem_mem hpos
      have h1 := hall _ hm
      have h2 := hdone _ hm
      rw [h1] at h2
      exact absurd h2 (by simp)
  · refine ⟨by omega, hl, hs, ?_, ?_⟩
    · intro c hc hd
      rcases hall c hc with h | h
      · rw [h] at hd; exact absurd hd (by simp)
      · exact h
    · intro hdone
      refine ⟨h1, hl, ?_⟩
      rw [List.eq_replicate_iff]
      refine ⟨hlen2, ?_⟩
      intro c hc
      rcases hall c hc with h | h
      · have := hdone c hc
        rw [h] at this; exact absurd this (by simp)
      · exact h

/-- The amended C16 at three callers of `shortLivedCell` (`ttl = 100`, producer `"A"` then
`"B"`) whose clock readings lie in `[1, 50]`: two callers pass the check before anyone holds
the lock, the third checks later; the producer is called once, nothing is launched, and all
three receive `"A"`. -/
theorem C16_single_flight_on_success_witness :
    ((1 : Nat) ≤ 3 ∧ shortLivedCell.dataActual = none ∧ shortLivedCell.dataPrevious = none ∧
      (50 : Int) ≤ 1 + shortLivedCell.ttl ∧
      InWindow 1 50
        [RaceStep.check 0, RaceStep.check 1, RaceStep.locked 1 (Context.caller 1) 1,
         RaceStep.check 2, RaceStep.locked 0 (Context.caller 0) 50,
         RaceStep.locked 2 (Context.caller 2) 2] ∧
      (∀ ctx now, firstLocked
          [RaceStep.check 0, RaceStep.check 1, RaceStep.locked 1 (Context.caller 1) 1,
           RaceStep.check 2, RaceStep.locked 0 (Context.caller 0) 50,
           RaceStep.locked 2 (Context.caller 2) 2] = some (ctx, now) →
        (shortLivedCell.getter ctx [⟨some "A", none⟩, ⟨some "B", none⟩]).1.data = some "A" ∧
        (shortLivedCell.getter ctx [⟨some "A", none⟩, ⟨some "B", none⟩]).1.err = none)) ∧
    ((Race.start shortLivedCell [⟨some "A", none⟩, ⟨some "B", none⟩] 3).run
        [RaceStep.check 0, RaceStep.check 1, RaceStep.locked 1 (Context.caller 1) 1,
         RaceStep.check 2, RaceStep.locked 0 (Context.caller 0) 50,
         RaceStep.locked 2 (Context.caller 2) 2]).map
      (fun r => (r.getterCalls, r.launched, r.callers.map Caller.result))
      = some (1, 0, [some (some "A", none), some (some "A", none), some (some "A", none)]) ∧
    ∀ r, (Race.start shortLivedCell [⟨some "A", none⟩, ⟨some "B", none⟩] 3).run
        [RaceStep.check 0, RaceStep.check 1, RaceStep.locked 1 (Context.caller 1) 1,
         RaceStep.check 2, RaceStep.locked 0 (Context.caller 0) 50,
         RaceStep.locked 2 (Context.caller 2) 2] = some r →
      r.getterCalls ≤ 1 ∧ r.launched = 0 :=
  have hwin : InWindow 1 50
      [RaceStep.check 0, RaceStep.check 1, RaceStep.locked 1 (Context.caller 1) 1,
       RaceStep.check 2, RaceStep.locked 0 (Context.caller 0) 50,
       RaceStep.locked 2 (Context.caller 2) 2] :=
    ⟨by decide, by decide, ⟨by decide, by decide, ⟨by decide, by decide, trivial⟩⟩⟩
  ⟨⟨by decide, rfl, rfl, by decide, hwin, fun _ _ _ => ⟨rfl, rfl⟩⟩, rfl,
   fun r hr =>
     have h := C16_single_flight_on_success shortLivedCell
       [⟨some "A", none⟩, ⟨some "B", none⟩] "A" 3 1 50 _ r (by decide) rfl rfl (by decide)
       hwin (fun _ _ _ => ⟨rfl, rfl⟩) hr
     ⟨h.1, h.2.1⟩⟩

theorem IsMaxHeap_getElem {s : List ExpiredKey} (h : IsMaxHeap s) (i : Nat)
    (p c : ExpiredKey) (hi : 0 < i) (hp : s[(i - 1) / 2]? = some p) (hc : s[i]? = some c) :
    ¬ (p.LastAccessed < c.LastAccessed) := by
  have hlt : i < s.length := by
    by_contra hcon
    rw [List.getElem?_eq_none (by omega)] at hc
    exact absurd hc (by simp)
  have := h i hi hlt
  simpa [tsAt, hp, hc] using this

theorem root_is_latest {s : List ExpiredKey} (h : IsMaxHeap s) (root : ExpiredKey)
    (hr : s[0]? = some root) : ∀ x ∈ s, x.LastAccessed ≤ root.LastAccessed := by
  cases s with
  | nil => simp at hr
  | cons a t =>
    have : a = root := by simpa using hr
    subst this
    exact IsMaxHeap_mem_le_root a t h

/-- C17: for every bound `K ≥ 0` and every list of candidates, after each `Add` (after the
first `k` of them, for every `k`) the run has returned and the slice is a max-heap on
`LastAccessed`: for every index `i > 0` in range, `Heap[(i-1)/2].LastAccessed` is not before
`Heap[i].LastAccessed`; so when the slice is not empty no retained entry is after
`Heap[0]`. -/
theorem C17_heap_order_after_each_Add (K : Int) (hK : 0 ≤ K) (xs : List ExpiredKey) (k : Nat) :
    ∃ lh, (NewHeap K).AddAll (xs.take k) = .ok lh ∧
      (∀ (i : Nat) (p c : ExpiredKey), 0 < i → lh.Heap[(i - 1) / 2]? = some p →
        lh.Heap[i]? = some c → ¬ (p.LastAccessed < c.LastAccessed)) ∧
      (∀ root, lh.Heap[0]? = some root → ∀ x ∈ lh.Heap, x.LastAccessed ≤ root.LastAccessed) := by
  obtain ⟨lh, hrun, -, hheap, -, -⟩ :=
    AddAll_spec K hK (xs.take k) [] (NewHeap K) (Selected_NewHeap K hK)
  exact ⟨lh, hrun, fun i p c hi hp hc => IsMaxHeap_getElem hheap i p c hi hp hc,
    fun root hr => root_is_latest hheap root hr⟩

/-- The statement C17 in the test `TestHeap`: the bound 7 over the ten dates of `prepareData`
ends with the keys laid out as `3, 1, 6, 9, 5, 10, 7` and the root dated 2020-04-02. -/
theorem C17_heap_order_after_each_Add_witness :
    (0 : Int) ≤ 7 ∧
    (∃ lh, (NewHeap 7).AddAll (prepareData.take 10) = .ok lh ∧
      (∀ (i : Nat) (p c : ExpiredKey), 0 < i → lh.Heap[(i - 1) / 2]? = some p →
        lh.Heap[i]? = some c → ¬ (p.LastAccessed < c.LastAccessed)) ∧
      (∀ root, lh.Heap[0]? = some root →
        ∀ x ∈ lh.Heap, x.LastAccessed ≤ root.LastAccessed)) ∧
    ((NewHeap 7).AddAll prepareData).toOption.map (fun h => h.Heap.map ExpiredKey.Key)
      = some ["3", "1", "6", "9", "5", "10", "7"] ∧
    ((NewHeap 7).AddAll prepareData).toOption.map (fun h => h.Heap[0]?)
      = some (some ⟨"3", 20200402⟩) ∧
    ((NewHeap 7).AddAll prepareData).toOption.map (fun h => (h.MaxElements, h.Heap.length))
      = some (7, 7) :=
  ⟨by decide, C17_heap_order_after_each_Add 7 (by decide) prepareData 10, by decide, by decide,
   by decide⟩

/-- C20: for every bound `MaxElements ≥ 0` and every sequence of `Add` calls on
`NewHeap(MaxElements)`, every call returns: no index is out of range, and `UpHeap` needs no
more than `index + 1` calls and `Heapify` no more than `len(Heap)`.  The parent index
`(index - 1) / 2` that `UpHeap` recurses on is below `index`, and the child index that
`LatestChild` yields for `Heapify` is above `index` and below `len(Heap)`.  With a negative
bound the first `Add` fails on an index out of range. -/
theorem C20_Add_in_bounds_and_terminates (K : Int) (xs : List ExpiredKey) (e : ExpiredKey) :
    (0 ≤ K → ∃ lh, (NewHeap K).AddAll xs = .ok lh ∧ ∃ lh1, lh.Add e = .ok lh1) ∧
    (∀ index : Nat, 0 < index → (index - 1) / 2 < index) ∧
    (∀ (lh : LatestHeap) (index i : Nat) (v : ExpiredKey),
      lh.LatestChild index = .ok (some (i, v)) → index < i ∧ i < lh.Heap.length) ∧
    (K < 0 → (NewHeap K).Add e = .error Fault.indexOutOfRange ∧
      ∀ rest, (NewHeap K).AddAll (e :: rest) = .error Fault.indexOutOfRange) := by
  refine ⟨?_, ?_, ?_, ?_⟩
  · intro hK
    obtain ⟨lh, hrun, hsel⟩ := AddAll_spec K hK xs [] (NewHeap K) (Selected_NewHeap K hK)
    obtain ⟨lh1, hadd, -⟩ := Add_spec K hK _ lh e hsel
    exact ⟨lh, hrun, lh1, hadd⟩
  · intro index h
    omega
  · intro lh index i v h
    rcases LatestChild_spec lh index with ⟨-, hnone⟩ | ⟨j, w, hsome, hj, hjc, -, -⟩
    · rw [hnone] at h
      simp at h
    · rw [hsome] at h
      simp only [Except.ok.injEq, Option.some.injEq, Prod.mk.injEq] at h
      obtain ⟨rfl, -⟩ := h
      omega
  · intro hK
    have hK0 : ¬ K = 0 := by omega
    have hlt : ¬ ((0 : Int) < K) := by omega
    have hadd : (NewHeap K).Add e = .error Fault.indexOutOfRange := by
      simp [LatestHeap.Add, NewHeap, hK0, hlt, readAt]
    refine ⟨hadd, ?_⟩
    intro rest
    simp [LatestHeap.AddAll, hadd]

/-- The statement C20 at the bound 2 with three candidates, and at the bound -1. -/
theorem C20_Add_in_bounds_and_terminates_witness :
    (∃ lh, (NewHeap 2).AddAll [⟨"a", 30⟩, ⟨"b", 10⟩] = .ok lh ∧
      ∃ lh1, lh.Add ⟨"c", 20⟩ = .ok lh1) ∧
    (NewHeap (-1)).Add ⟨"c", 20⟩ = .error Fault.indexOutOfRange :=
  have h := C20_Add_in_bounds_and_terminates 2 [⟨"a", 30⟩, ⟨"b", 10⟩] ⟨"c", 20⟩
  have h2 := C20_Add_in_bounds_and_terminates (-1) [] ⟨"c", 20⟩
  ⟨h.1 (by decide), (h2.2.2.2 (by decide)).1⟩

theorem Get_of_cold_nil {G V E : Type} (ci : CacheItem G V E) (ctx : Context) (now : Int)
    (g : G) (hcur : ci.dataActual = none) (hst : ci.dataPrevious = none)
    (httl : 0 ≤ ci.ttl)
    (hd : (ci.getter ctx g).1.data = none) (he : (ci.getter ctx g).1.err = none) :
    ci.Get ctx now g =
      { value := none, err := none,
        ci := CacheItem.update { ci with lastAccessed := now } none now,
        world := (ci.getter ctx g).2, getterCalls := 1, launched := 0 } := by
  have h : ci.Get ctx now g =
      CacheItem.GetTail (CacheItem.update { ci with lastAccessed := now } none now)
        now (ci.getter ctx g).2 1 := by
    simp [CacheItem.Get, hst, hcur, hd, he]
  rw [h]
  have hn : ¬ now > (CacheItem.update { ci with lastAccessed := now } none now).nextRefresh := by
    simp only [CacheItem.update]
    omega
  rw [(GetTail_of_stale_none _ now (ci.getter ctx g).2 1 rfl).2 hn]
  rfl

theorem GetAll_of_nil_producer {G V E : Type} (calls : List (Context × Int)) :
    ∀ (ci : CacheItem G V E) (g : G), ci.dataActual = none → ci.dataPrevious = none →
      0 ≤ ci.ttl →
      (∀ c w, (ci.getter c w).1.data = none ∧ (ci.getter c w).1.err = none) →
      (ci.GetAll g calls).1.length = calls.length ∧
      ∀ r ∈ (ci.GetAll g calls).1,
        r.value = none ∧ r.err = none ∧ r.getterCalls = 1 ∧ r.launched = 0 ∧
        r.ci.dataPrevious = none ∧ r.ci.dataActual = none := by
  induction calls with
  | nil =>
    intro ci g _ _ _ _
    simp [CacheItem.GetAll]
  | cons c rest ih =>
    intro ci g hcur hst httl hnil
    obtain ⟨ctx, now⟩ := c
    have hG := Get_of_cold_nil ci ctx now g hcur hst httl (hnil ctx g).1 (hnil ctx g).2
    obtain ⟨i1, i2⟩ := ih (CacheItem.update { ci with lastAccessed := now } none now)
      (ci.getter ctx g).2 rfl rfl httl hnil
    simp only [CacheItem.GetAll, hG, List.length_cons, List.mem_cons]
    refine ⟨by rw [i1], ?_⟩
    intro r hr
    rcases hr with hr | hr
    · subst hr
      exact ⟨rfl, rfl, rfl, rfl, rfl, rfl⟩
    · exact i2 r hr

/-- C18: on a cell without value and snapshot, with `ttl ≥ 0`, whose producer always returns
the nil value and no error, every one of any number of calls of `Get`, at whatever times,
calls the producer once, returns `(nil, nil)`, launches no refresh and leaves the snapshot and
the value absent.  Likewise a `refresh` whose producer returns nil without error leaves any
cell without value and without snapshot, and the `Get` that follows calls the producer. -/
theorem C18_nil_value_is_no_value {G V E : Type} (ci : CacheItem G V E)
    (calls : List (Context × Int)) (g : G)
    (hcur : ci.dataActual = none) (hst : ci.dataPrevious = none) (httl : 0 ≤ ci.ttl)
    (hnil : ∀ c w, (ci.getter c w).1.data = none ∧ (ci.getter c w).1.err = none) :
    ((ci.GetAll g calls).1.length = calls.length ∧
      ∀ r ∈ (ci.GetAll g calls).1,
        r.value = none ∧ r.err = none ∧ r.getterCalls = 1 ∧ r.launched = 0 ∧
        r.ci.dataPrevious = none ∧ r.ci.dataActual = none) ∧
    (∀ (warm : CacheItem G V E) (t : Int) (w : G) (ctx : Context) (now : Int) (w2 : G),
      (warm.getter (Context.backgroundWithTimeout warm.ttl) w).1.data = none →
      (warm.getter (Context.backgroundWithTimeout warm.ttl) w).1.err = none →
      (warm.refresh t w).1.dataActual = none ∧ (warm.refresh t w).1.dataPrevious = none ∧
      (warm.refresh t w).1.InRefresh = false ∧
      ((warm.refresh t w).1.Get ctx now w2).getterCalls = 1) := by
  refine ⟨GetAll_of_nil_producer calls ci g hcur hst httl hnil, ?_⟩
  intro warm t w ctx now w2 hd he
  have hr : warm.refresh t w
      = (warm.update none t, (warm.getter (Context.backgroundWithTimeout warm.ttl) w).2) := by
    rw [refresh_of_no_error warm t w he, hd]
  rw [hr]
  refine ⟨rfl, rfl, rfl, ?_⟩
  cases herr : ((warm.update none t).getter ctx w2).1.err with
  | some e =>
    rw [Get_of_cold_failure (warm.update none t) ctx now w2 e rfl rfl herr]
  | none =>
    have hG : (warm.update none t).Get ctx now w2 =
        CacheItem.GetTail
          (CacheItem.update { warm.update none t with lastAccessed := now }
            ((warm.update none t).getter ctx w2).1.data now)
          now ((warm.update none t).getter ctx w2).2 1 := by
      have herr2 : (warm.getter ctx w2).1.err = none := herr
      simp [CacheItem.Get, CacheItem.update, herr2]
    rw [hG]
    unfold CacheItem.GetTail
    split <;> rfl

/-- The statement C18 at a new cell with `ttl = 1000` whose producer always returns nil, called
three times, twice at the same instant; and at `nilRefreshing`, a warm cell whose refresh
returns nil. -/
theorem C18_nil_value_is_no_value_witness :
    ((NewCacheItem nilGetter 1000 0).dataActual = none ∧
      (NewCacheItem nilGetter 1000 0).dataPrevious = none ∧
      (0 : Int) ≤ (NewCacheItem nilGetter 1000 0).ttl ∧
      ∀ c w, ((NewCacheItem nilGetter 1000 0).getter c w).1.data = none ∧
        ((NewCacheItem nilGetter 1000 0).getter c w).1.err = none) ∧
    (((NewCacheItem nilGetter 1000 0).GetAll 0
        [(Context.caller 0, 5), (Context.caller 0, 5), (Context.caller 1, 9000)]).1.map
      (fun r => (r.value, r.err, r.getterCalls, r.launched, r.ci.dataPrevious))
      = [(none, none, 1, 0, none), (none, none, 1, 0, none), (none, none, 1, 0, none)]) ∧
    ((NewCacheItem nilGetter 1000 0).GetAll 0
        [(Context.caller 0, 5), (Context.caller 0, 5), (Context.caller 1, 9000)]).2.2 = 3 ∧
    ((nilRefreshing.refresh 1150 7).1.dataActual = none ∧
      (nilRefreshing.refresh 1150 7).1.dataPrevious = none ∧
      (nilRefreshing.refresh 1150 7).1.InRefresh = false ∧
      ((nilRefreshing.refresh 1150 7).1.Get (Context.caller 0) 1200 8).getterCalls = 1) :=
  have h := C18_nil_value_is_no_value (NewCacheItem nilGetter 1000 0)
    [(Context.caller 0, 5), (Context.caller 0, 5), (Context.caller 1, 9000)] 0
    rfl rfl (by decide) (fun _ _ => ⟨rfl, rfl⟩)
  ⟨⟨rfl, rfl, by decide, fun _ _ => ⟨rfl, rfl⟩⟩, by decide, by decide,
   h.2 nilRefreshing 1150 7 (Context.caller 0) 1200 8 rfl rfl⟩

/-- C19: a `refresh` that completes at time `t` with a producer that returned without error
sets `lastAccessed = t`, which is what `LastAccessed` then reports; a `refresh` whose producer
fails leaves `lastAccessed` as it was; and so does a `Get` that is served from the
snapshot. -/
theorem C19_refresh_counts_as_access {G V E : Type} (ci : CacheItem G V E) (t : Int) (g : G)
    (ctx : Context) (now : Int) :
    ((ci.getter (Context.backgroundWithTimeout ci.ttl) g).1.err = none →
      (ci.refresh t g).1.lastAccessed = t ∧ (ci.refresh t g).1.LastAccessed = t) ∧
    (∀ e, (ci.getter (Context.backgroundWithTimeout ci.ttl) g).1.err = some e →
      (ci.refresh t g).1.lastAccessed = ci.lastAccessed ∧
      (ci.refresh t g).1.LastAccessed = ci.LastAccessed) ∧
    (∀ p, ci.dataPrevious = some p →
      (ci.Get ctx now g).value = some p ∧
      (ci.Get ctx now g).ci.lastAccessed = ci.lastAccessed ∧
      (ci.Get ctx now g).ci.LastAccessed = ci.LastAccessed) := by
  refine ⟨?_, ?_, ?_⟩
  · intro he
    rw [refresh_of_no_error ci t g he]
    exact ⟨rfl, rfl⟩
  · intro e he
    rw [refresh_of_failure ci t g e he]
    exact ⟨rfl, rfl⟩
  · intro p hp
    rw [Get_of_stale ci p ctx now g hp]
    exact ⟨rfl, rfl, rfl⟩

/-- The statement C19 at `failingCell`, last accessed at 1100 with a refresh in flight: a
refresh that returns `"B"` at 1150 moves `lastAccessed` to 1150, a refresh that fails leaves
it at 1100, and so does a `Get` at 5000 served from the snapshot. -/
theorem C19_refresh_counts_as_access_witness :
    (failingCell.refresh 1150 [⟨some "B", none⟩]).1.LastAccessed = 1150 ∧
    (failingCell.refresh 1150 []).1.LastAccessed = 1100 ∧
    (failingCell.Get (Context.caller 0) 5000 []).ci.LastAccessed = 1100 :=
  have h := C19_refresh_counts_as_access failingCell 1150 [⟨some "B", none⟩]
    (Context.caller 0) 5000
  have h2 := C19_refresh_counts_as_access failingCell 1150 [] (Context.caller 0) 5000
  ⟨(h.1 rfl).2, (h2.2.1 "empty" rfl).2, (h2.2.2 "A" rfl).2.2⟩

end Livecache
